import Mathlib

/-!
# `fgt::cluster` (src/cluster-openmp.cpp)

A shallow embedding of the k-means clustering routine of the fast Gauss
transform library, in exact rational arithmetic.

* Dense Eigen vectors and matrices are total functions on indices
  (`Nat → α`, `Nat → Nat → ℚ`); an assignment `v[i] = x` is `setVec v i x`
  and `m(i, j) = x` is `setMat m i j x`.  Only the entries inside the
  declared dimensions exist in the program; an access outside them is
  undefined there, and reads or writes the function at that index here.
* `double` is `ℚ`: every `+`, `-`, `/` and `pow(·, 2)` is exact.
  `std::numeric_limits<double>::max()` and `::min()` are the rational values
  of those two constants.  `std::sqrt` is a parameter (`Platform.sqrt`).
* `VectorXs labels(rows)` and `VectorXs counts(nclusters)` are not
  initialised by Eigen; their initial content is a parameter
  (`Platform.labels`, `Platform.counts`).
* `size_t` counts and labels are `Nat`: a count never exceeds `rows`, so no
  machine addition wraps.
* The `do … while` loop is run by one worker (`pass`, `loop`); `loop` takes
  fuel and returns `none` when the fuel is used up before the exit test fails.
* `passTeam` runs one pass of the loop with a team of workers: every worker
  has private buffers and a list of point indices; the workers run their loop
  over the points, and then their merge, one after the other.  Every worker
  evaluates the test of line 96 itself (`continuesTeam`), and nothing orders
  that read against the writes of lines 49-50 by the worker that starts the
  next pass (`saveError`, `clearError`).
* The sum of line 77 can overflow.  `Dbl` is a double as `error` and
  `old_error` hold it, a finite value, an infinity or a NaN; `errorD`,
  `continuesD`, `loopD` and `clusterD` are lines 50, 77 and 96 and the loop on
  such doubles, a finite sum being exact below the overflow threshold and
  `+inf` from it on.
-/

namespace fgt

/-- The value of `std::numeric_limits<double>::max()`: `(2 - 2^-52) * 2^1023`. -/
def numeric_limits_max : ℚ := (2 ^ 53 - 1) * 2 ^ 971

/-- The value of `std::numeric_limits<double>::min()`, the least positive
normal double, `2^-1022`. -/
def numeric_limits_min : ℚ := 1 / 2 ^ 1022

/-- The assignment `v[i] = x`. -/
def setVec {α : Type} (v : Nat → α) (i : Nat) (x : α) : Nat → α :=
  fun a => if a = i then x else v a

/-- The assignment `m(i, j) = x`. -/
def setMat (m : Nat → Nat → ℚ) (i j : Nat) (x : ℚ) : Nat → Nat → ℚ :=
  fun a b => if a = i ∧ b = j then x else m a b

/-- The arguments of `cluster`: `points` is `rows × cols`,
`starting_clusters` is `nclusters × cols`. -/
structure Input where
  rows : Nat
  cols : Nat
  points : Nat → Nat → ℚ
  nclusters : Nat
  epsilon : ℚ
  starting_clusters : Nat → Nat → ℚ

/-- What the program takes from its platform: `std::sqrt`, and the content
of the uninitialised vectors `labels` and `counts`. -/
structure Platform where
  sqrt : ℚ → ℚ
  labels : Nat → Nat
  counts : Nat → Nat

/-- The variables carried by the `do … while` loop (lines 29-39). -/
structure State where
  clusters : Nat → Nat → ℚ
  temp_clusters : Nat → Nat → ℚ
  counts : Nat → Nat
  labels : Nat → Nat
  error : ℚ
  old_error : ℚ
  local_clusters : Nat → Nat → ℚ
  local_counts : Nat → Nat

/-- The variables written by the loop over the points (lines 60-78); `error`
is the worker's private copy of the reduction variable. -/
structure Accum where
  local_clusters : Nat → Nat → ℚ
  local_counts : Nat → Nat
  labels : Nat → Nat
  error : ℚ

/-- The value returned by `cluster` (line 116). -/
structure Clustering where
  max_radius : ℚ
  labels : Nat → Nat
  clusters : Nat → Nat → ℚ
  counts : Nat → Nat
  radii : Nat → ℚ

/-- Lines 43-45 (and 53-55): `for j < cols: m(i, j) = 0.0`. -/
def zeroRow (cols : Nat) (m : Nat → Nat → ℚ) (i : Nat) : Nat → Nat → ℚ :=
  (List.range cols).foldl (fun m j => setMat m i j 0) m

/-- Lines 41-46 (on `local_counts`, `local_clusters`) and lines 51-56 (on
`counts`, `temp_clusters`): zero the counts and the coordinate sums. -/
def resetAccumulators (nclusters cols : Nat) (cnt : Nat → Nat) (m : Nat → Nat → ℚ) :
    (Nat → Nat) × (Nat → Nat → ℚ) :=
  (List.range nclusters).foldl
    (fun (st : (Nat → Nat) × (Nat → Nat → ℚ)) i => (setVec st.1 i 0, zeroRow cols st.2 i))
    (cnt, m)

/-- Lines 63-66 (and 103-106): the squared Euclidean distance between point
`i` and centroid `j`. -/
def squaredDistance (cols : Nat) (points clusters : Nat → Nat → ℚ) (i j : Nat) : ℚ :=
  (List.range cols).foldl (fun distance k => distance + (points i k - clusters j k) ^ 2) 0

/-- Lines 61-71: the scan over the centroids for point `i`.  The pair is
(`labels[i]`, `min_distance`); `label` is the content of `labels[i]` before
the scan. -/
def nearest (inp : Input) (clusters : Nat → Nat → ℚ) (i : Nat) (label : Nat) : Nat × ℚ :=
  (List.range inp.nclusters).foldl
    (fun (st : Nat × ℚ) j =>
      if squaredDistance inp.cols inp.points clusters i j < st.2
      then (j, squaredDistance inp.cols inp.points clusters i j) else st)
    (label, numeric_limits_max)

/-- Lines 73-75: `for k < cols: local_clusters(l, k) += points(i, k)`. -/
def addPoint (inp : Input) (local_clusters : Nat → Nat → ℚ) (l i : Nat) : Nat → Nat → ℚ :=
  (List.range inp.cols).foldl (fun m k => setMat m l k (m l k + inp.points i k)) local_clusters

/-- Lines 61-77: the body of the loop over the points, for point `i`. -/
def assignPoint (inp : Input) (clusters : Nat → Nat → ℚ) (a : Accum) (i : Nat) : Accum :=
  let found := nearest inp clusters i (a.labels i)
  let labels := setVec a.labels i found.1
  { local_clusters := addPoint inp a.local_clusters (labels i) i
    local_counts := setVec a.local_counts (labels i) (a.local_counts (labels i) + 1)
    labels := labels
    error := a.error + found.2 }

/-- Lines 60-78: the loop over the points, for the indices `idx` that a
worker is given. -/
def assign (inp : Input) (clusters : Nat → Nat → ℚ) (idx : List Nat) (a : Accum) : Accum :=
  idx.foldl (assignPoint inp clusters) a

/-- Lines 83-85: `for k < cols: temp_clusters(j, k) += local_clusters(j, k)`. -/
def mergeRow (cols : Nat) (temp_clusters local_clusters : Nat → Nat → ℚ) (j : Nat) :
    Nat → Nat → ℚ :=
  (List.range cols).foldl (fun m k => setMat m j k (m j k + local_clusters j k)) temp_clusters

/-- Lines 81-86: the critical section, one worker's merge into the global
buffers. -/
def merge (nclusters cols : Nat) (glob : (Nat → Nat) × (Nat → Nat → ℚ))
    (local_counts : Nat → Nat) (local_clusters : Nat → Nat → ℚ) :
    (Nat → Nat) × (Nat → Nat → ℚ) :=
  (List.range nclusters).foldl
    (fun (st : (Nat → Nat) × (Nat → Nat → ℚ)) j =>
      (setVec st.1 j (st.1 j + local_counts j), mergeRow cols st.2 local_clusters j))
    glob

/-- Lines 91-94: the new row `j` of `clusters`. -/
def updateRow (cols : Nat) (counts : Nat → Nat) (temp_clusters clusters : Nat → Nat → ℚ)
    (j : Nat) : Nat → Nat → ℚ :=
  (List.range cols).foldl
    (fun m k => setMat m j k
      (if counts j ≠ 0 then temp_clusters j k / (counts j : ℚ) else temp_clusters j k))
    clusters

/-- Lines 90-95: the centroid update. -/
def update (nclusters cols : Nat) (counts : Nat → Nat)
    (temp_clusters clusters : Nat → Nat → ℚ) : Nat → Nat → ℚ :=
  (List.range nclusters).foldl (updateRow cols counts temp_clusters) clusters

/-- Lines 41-95: one pass of the `do … while` body, run by a single worker. -/
def pass (inp : Input) (s : State) : State :=
  let loc := resetAccumulators inp.nclusters inp.cols s.local_counts s.local_clusters
  let old_error := s.error
  let glob := resetAccumulators inp.nclusters inp.cols s.counts s.temp_clusters
  let a := assign inp s.clusters (List.range inp.rows)
    { local_clusters := loc.2, local_counts := loc.1, labels := s.labels, error := 0 }
  let error := 0 + a.error
  let merged := merge inp.nclusters inp.cols glob a.local_counts a.local_clusters
  { clusters := update inp.nclusters inp.cols merged.1 merged.2 s.clusters
    temp_clusters := merged.2
    counts := merged.1
    labels := a.labels
    error := error
    old_error := old_error
    local_clusters := a.local_clusters
    local_counts := a.local_counts }

/-- Line 96: the test of the `do … while` loop. -/
def continues (inp : Input) (s : State) : Prop :=
  |s.error - s.old_error| > inp.epsilon

instance (inp : Input) (s : State) : Decidable (continues inp s) := by
  unfold continues; infer_instance

/-- Lines 29-39: the variables on entry to the loop. -/
def init (P : Platform) (inp : Input) : State :=
  { clusters := inp.starting_clusters
    temp_clusters := inp.starting_clusters
    counts := P.counts
    labels := P.labels
    error := 0
    old_error := 0
    local_clusters := inp.starting_clusters
    local_counts := P.counts }

/-- Lines 40-96: the `do … while` loop, with fuel. -/
def loop (inp : Input) : Nat → State → Option State
  | 0, _ => none
  | fuel + 1, s =>
    if continues inp (pass inp s) then loop inp fuel (pass inp s) else some (pass inp s)

/-- The state after `n` passes, whatever the exit test says. -/
def passes (inp : Input) (s : State) : Nat → State
  | 0 => s
  | n + 1 => pass inp (passes inp s n)

/-- Lines 103-113: the body of the radius loop, for point `i`; the pair is
(`radii`, `max_radius`). -/
def radiusPoint (P : Platform) (inp : Input) (clusters : Nat → Nat → ℚ) (labels : Nat → Nat)
    (r : (Nat → ℚ) × ℚ) (i : Nat) : (Nat → ℚ) × ℚ :=
  let distance := P.sqrt (squaredDistance inp.cols inp.points clusters i (labels i))
  (if distance > r.1 (labels i) then setVec r.1 (labels i) distance else r.1,
   if distance > r.2 then distance else r.2)

/-- Lines 99-114: the radius pass over the first `n` points. -/
def radiusPass (P : Platform) (inp : Input) (clusters : Nat → Nat → ℚ) (labels : Nat → Nat)
    (n : Nat) : (Nat → ℚ) × ℚ :=
  (List.range n).foldl (radiusPoint P inp clusters labels)
    (fun _ => numeric_limits_min, numeric_limits_min)

/-- Lines 99-116: the radius pass and the returned aggregate. -/
def finish (P : Platform) (inp : Input) (s : State) : Clustering :=
  let r := radiusPass P inp s.clusters s.labels inp.rows
  { max_radius := r.2
    labels := s.labels
    clusters := s.clusters
    counts := s.counts
    radii := r.1 }

/-- Lines 25-117: `cluster`, with fuel for the convergence loop. -/
def cluster (fuel : Nat) (P : Platform) (inp : Input) : Option Clustering :=
  (loop inp fuel (init P inp)).map (finish P inp)

/-- The label the scan leaves in `labels[i]`, from the centroids `clusters`
and the previous content `labels`. -/
def newLabel (inp : Input) (clusters : Nat → Nat → ℚ) (labels : Nat → Nat) (i : Nat) : Nat :=
  (nearest inp clusters i (labels i)).1

/-- The `min_distance` the scan leaves for point `i`. -/
def minDistance (inp : Input) (clusters : Nat → Nat → ℚ) (labels : Nat → Nat) (i : Nat) : ℚ :=
  (nearest inp clusters i (labels i)).2

/-- The label `l` is the lowest index among the centroids at least squared
distance from point `i`. -/
def IsNearest (inp : Input) (clusters : Nat → Nat → ℚ) (i l : Nat) : Prop :=
  l < inp.nclusters ∧
    (∀ j, j < inp.nclusters →
      squaredDistance inp.cols inp.points clusters i l
        ≤ squaredDistance inp.cols inp.points clusters i j) ∧
    (∀ j, j < l →
      squaredDistance inp.cols inp.points clusters i l
        < squaredDistance inp.cols inp.points clusters i j)

/-- Every point has a starting centroid at a squared distance below
`numeric_limits<double>::max()`, the initial running minimum. -/
def startsBelowMax (inp : Input) : Prop :=
  ∀ i, i < inp.rows → ∃ j, j < inp.nclusters ∧
    squaredDistance inp.cols inp.points inp.starting_clusters i j < numeric_limits_max

/-- The Euclidean distance of lines 103-107 between point `i` and the
centroid of its label in the returned clustering. -/
def pointRadius (P : Platform) (inp : Input) (r : Clustering) (i : Nat) : ℚ :=
  P.sqrt (squaredDistance inp.cols inp.points r.clusters i (r.labels i))

/-- A square root on `ℚ` for concrete runs, exact on the squares of
rationals. -/
def sqrtExact (x : ℚ) : ℚ := (Nat.sqrt x.num.toNat : ℚ) / (Nat.sqrt x.den : ℚ)

/-- A platform for concrete runs: `sqrtExact`, and uninitialised vectors
filled with 7 and 9. -/
def platform0 : Platform :=
  { sqrt := sqrtExact
    labels := fun _ => 7
    counts := fun _ => 9 }

/-- The scenario of the specification: the points (0,0), (0,1), (10,0),
(10,1), two clusters starting at (0,0) and (10,0), tolerance 1e-6. -/
def scenario : Input :=
  { rows := 4
    cols := 2
    points := fun i k =>
      match i, k with
      | 1, 1 => 1
      | 2, 0 => 10
      | 3, 0 => 10
      | 3, 1 => 1
      | _, _ => 0
    nclusters := 2
    epsilon := 1 / 1000000
    starting_clusters := fun j k =>
      match j, k with
      | 1, 0 => 10
      | _, _ => 0 }

/-- What the specification expects of the scenario. -/
def scenarioExpected (r : Clustering) : Prop :=
  r.clusters 0 0 = 0 ∧ r.clusters 0 1 = 1 / 2 ∧ r.clusters 1 0 = 10 ∧ r.clusters 1 1 = 1 / 2 ∧
  r.labels 0 = 0 ∧ r.labels 1 = 0 ∧ r.labels 2 = 1 ∧ r.labels 3 = 1 ∧
  r.counts 0 = 2 ∧ r.counts 1 = 2 ∧
  r.radii 0 = 1 / 2 ∧ r.radii 1 = 1 / 2 ∧ r.max_radius = 1 / 2

/-- The points 0, 0, 5, 8 on the line, two clusters starting at 3 and 8,
tolerance 25: the loop exits after its first pass. -/
def staleInput : Input :=
  { rows := 4
    cols := 1
    points := fun i _ =>
      match i with
      | 2 => 5
      | 3 => 8
      | _ => 0
    nclusters := 2
    epsilon := 25
    starting_clusters := fun j _ =>
      match j with
      | 0 => 3
      | _ => 8 }

/-- Two copies of the point (1,1), one cluster starting at the origin. -/
def twins : Input :=
  { rows := 2
    cols := 2
    points := fun _ _ => 1
    nclusters := 1
    epsilon := 1
    starting_clusters := fun _ _ => 0 }

/-- The points 0 and 1 on the line, two clusters starting at 0 and 5,
tolerance 2: the second cluster gets no point. -/
def vacated : Input :=
  { rows := 2
    cols := 1
    points := fun i _ =>
      match i with
      | 1 => 1
      | _ => 0
    nclusters := 2
    epsilon := 2
    starting_clusters := fun j _ =>
      match j with
      | 0 => 0
      | _ => 5 }

/-- One point at 2^600 on the line, one cluster starting at 0: the squared
distance 2^1200 is not below `numeric_limits<double>::max()`. -/
def farPoint : Input :=
  { rows := 1
    cols := 1
    points := fun _ _ => 2 ^ 600
    nclusters := 1
    epsilon := 1
    starting_clusters := fun _ _ => 0 }

/-- The error `E_n` computed in pass `n`; `E_0` is the initial value of
`error`. -/
def errorAt (P : Platform) (inp : Input) (n : Nat) : ℚ :=
  (passes inp (init P inp) n).error

/-- The number of points among `idx` that the scan labels `j`. -/
def countIn (inp : Input) (clusters : Nat → Nat → ℚ) (labels : Nat → Nat) (idx : List Nat)
    (j : Nat) : Nat :=
  idx.countP (fun i => newLabel inp clusters labels i = j)

/-- The sum of coordinate `k` over the points among `idx` that the scan labels
`j`. -/
def sumIn (inp : Input) (clusters : Nat → Nat → ℚ) (labels : Nat → Nat) (idx : List Nat)
    (j k : Nat) : ℚ :=
  ((idx.filter (fun i => newLabel inp clusters labels i = j)).map (fun i => inp.points i k)).sum

/-- The sum of `min_distance` over the points among `idx`. -/
def errorIn (inp : Input) (clusters : Nat → Nat → ℚ) (labels : Nat → Nat) (idx : List Nat) : ℚ :=
  (idx.map (minDistance inp clusters labels)).sum

/-- One worker of the parallel region: its private buffers (lines 38-39) and
the indices that the `omp for` of line 59 gives it. -/
structure Worker where
  local_clusters : Nat → Nat → ℚ
  local_counts : Nat → Nat
  range : List Nat

/-- The shared variables of the parallel region (lines 29-34) and its
workers. -/
structure Team where
  clusters : Nat → Nat → ℚ
  temp_clusters : Nat → Nat → ℚ
  counts : Nat → Nat
  labels : Nat → Nat
  error : ℚ
  old_error : ℚ
  workers : List Worker

/-- Lines 41-46 for one worker: zero its private buffers. -/
def resetWorker (inp : Input) (w : Worker) : Worker :=
  { local_clusters :=
      (resetAccumulators inp.nclusters inp.cols w.local_counts w.local_clusters).2
    local_counts := (resetAccumulators inp.nclusters inp.cols w.local_counts w.local_clusters).1
    range := w.range }

/-- Lines 59-78 for the workers in turn: each loops over its own indices with
its private buffers and a private copy of `error` that starts at 0; the
reduction adds the private copies to the shared `error`.  The pair carried is
(`labels`, `error`); the workers come back with their buffers filled. -/
def assignTeam (inp : Input) (clusters : Nat → Nat → ℚ) :
    List Worker → (Nat → Nat) × ℚ → ((Nat → Nat) × ℚ) × List Worker
  | [], st => (st, [])
  | w :: ws, st =>
    let a := assign inp clusters w.range
      { local_clusters := w.local_clusters, local_counts := w.local_counts,
        labels := st.1, error := 0 }
    let rest := assignTeam inp clusters ws (a.labels, st.2 + a.error)
    (rest.1,
      { local_clusters := a.local_clusters, local_counts := a.local_counts, range := w.range }
        :: rest.2)

/-- Lines 80-86 for the workers in turn: each merges its private buffers into
the global ones inside the critical section. -/
def mergeTeam (inp : Input) (workers : List Worker) (glob : (Nat → Nat) × (Nat → Nat → ℚ)) :
    (Nat → Nat) × (Nat → Nat → ℚ) :=
  workers.foldl (fun g w => merge inp.nclusters inp.cols g w.local_counts w.local_clusters) glob

/-- Lines 41-95: one pass of the `do … while` body run by a team of workers. -/
def passTeam (inp : Input) (t : Team) : Team :=
  let ws := t.workers.map (resetWorker inp)
  let old_error := t.error
  let glob := resetAccumulators inp.nclusters inp.cols t.counts t.temp_clusters
  let ran := assignTeam inp t.clusters ws (t.labels, 0)
  let merged := mergeTeam inp ran.2 glob
  { clusters := update inp.nclusters inp.cols merged.1 merged.2 t.clusters
    temp_clusters := merged.2
    counts := merged.1
    labels := ran.1.1
    error := ran.1.2
    old_error := old_error
    workers := ran.2 }

/-- Lines 29-39 for a team: one worker for each of `ranges`. -/
def initTeam (P : Platform) (inp : Input) (ranges : List (List Nat)) : Team :=
  { clusters := inp.starting_clusters
    temp_clusters := inp.starting_clusters
    counts := P.counts
    labels := P.labels
    error := 0
    old_error := 0
    workers := ranges.map (fun r =>
      { local_clusters := inp.starting_clusters, local_counts := P.counts, range := r }) }

/-- The shared variables of a team hold what the variables of the
single-worker state hold. -/
def SameShared (t : Team) (s : State) : Prop :=
  t.clusters = s.clusters ∧ t.temp_clusters = s.temp_clusters ∧ t.counts = s.counts ∧
    t.labels = s.labels ∧ t.error = s.error ∧ t.old_error = s.old_error

/-- The index lists `ranges` split `[0, rows)`: together they hold every index
below `rows` once and nothing else. -/
def IsSplit (inp : Input) (ranges : List (List Nat)) : Prop :=
  List.Perm ranges.flatten (List.range inp.rows)

/-- A split of the four points of the scenario among three workers, one of
them idle. -/
def scenarioSplit : List (List Nat) := [[2, 0], [], [3, 1]]

/-- Five points on the line at -16, -6, -6, -5 and -2 times 2^509, two
clusters starting at -9 and 14 times 2^509, tolerance 1.  Every point starts
below the sentinel of cluster 0 (2^1024 is 64 times the square of 2^509); in
the second pass the point at -16 is below the sentinel of no centroid. -/
def drift : Input :=
  { rows := 5
    cols := 1
    points := fun i _ =>
      match i with
      | 0 => -16 * 2 ^ 509
      | 1 => -6 * 2 ^ 509
      | 2 => -6 * 2 ^ 509
      | 3 => -5 * 2 ^ 509
      | _ => -2 * 2 ^ 509
    nclusters := 2
    epsilon := 1
    starting_clusters := fun j _ =>
      match j with
      | 0 => -9 * 2 ^ 509
      | _ => 14 * 2 ^ 509 }

/-- The cost of the labels of a state against the centroids of the state: the
sum over the points of the squared distance to the centroid of the label. -/
def assignedCost (inp : Input) (s : State) : ℚ :=
  ∑ i in Finset.range inp.rows, squaredDistance inp.cols inp.points s.clusters i (s.labels i)

/-- The number of points whose label is not a cluster index. -/
def unwrittenCount (inp : Input) (s : State) : Nat :=
  ((Finset.range inp.rows).filter (fun i => inp.nclusters ≤ s.labels i)).card

/-- The sum of the labels of the points. -/
def labelTotal (inp : Input) (s : State) : Nat :=
  ∑ i in Finset.range inp.rows, s.labels i

/-- Line 96 as one worker of a team evaluates it, on the shared `error` and
`old_error` it reads. -/
def continuesTeam (inp : Input) (t : Team) : Prop :=
  |t.error - t.old_error| > inp.epsilon

instance (inp : Input) (t : Team) : Decidable (continuesTeam inp t) := by
  unfold continuesTeam; infer_instance

/-- Line 49, `old_error = error`, run by the worker that enters the `single`
block of the next pass.  The `single` block of lines 89-95 ends in a barrier,
and no barrier stands between line 96 and line 49: the write can come before
another worker has evaluated line 96. -/
def saveError (t : Team) : Team :=
  { t with old_error := t.error }

/-- Line 50, `error = 0.0`, the write that follows line 49. -/
def clearError (t : Team) : Team :=
  { t with error := 0 }

/-! ## The error as a double -/

/-- A `double` as `error` and `old_error` hold it and as line 96 compares it:
a finite value, held exactly, an infinity or a NaN. -/
inductive Dbl where
  | fin (q : ℚ)
  | posInf
  | negInf
  | nan
deriving DecidableEq

/-- The least magnitude that rounding to nearest takes to an infinity,
`2^1024 - 2^970`: half a unit in the last place above
`numeric_limits<double>::max()`. -/
def overflow_threshold : ℚ := 2 ^ 1024 - 2 ^ 970

/-- The double of an exact finite result: an infinity from the overflow
threshold on, the result itself below it. -/
def Dbl.ofExact (q : ℚ) : Dbl :=
  if overflow_threshold ≤ q then Dbl.posInf
  else if q ≤ -overflow_threshold then Dbl.negInf
  else Dbl.fin q

/-- The `+` of doubles: a NaN operand or infinities of opposite signs give a
NaN, an infinity absorbs a finite operand, and a finite sum may overflow. -/
def Dbl.add : Dbl → Dbl → Dbl
  | Dbl.nan, _ => Dbl.nan
  | _, Dbl.nan => Dbl.nan
  | Dbl.posInf, Dbl.negInf => Dbl.nan
  | Dbl.negInf, Dbl.posInf => Dbl.nan
  | Dbl.posInf, _ => Dbl.posInf
  | _, Dbl.posInf => Dbl.posInf
  | Dbl.negInf, _ => Dbl.negInf
  | _, Dbl.negInf => Dbl.negInf
  | Dbl.fin a, Dbl.fin b => Dbl.ofExact (a + b)

/-- The unary `-` of doubles. -/
def Dbl.neg : Dbl → Dbl
  | Dbl.fin a => Dbl.fin (-a)
  | Dbl.posInf => Dbl.negInf
  | Dbl.negInf => Dbl.posInf
  | Dbl.nan => Dbl.nan

/-- The `-` of doubles. -/
def Dbl.sub (a b : Dbl) : Dbl := Dbl.add a (Dbl.neg b)

/-- The `std::abs` of a double. -/
def Dbl.abs : Dbl → Dbl
  | Dbl.fin a => Dbl.fin |a|
  | Dbl.posInf => Dbl.posInf
  | Dbl.negInf => Dbl.posInf
  | Dbl.nan => Dbl.nan

/-- The `>` of doubles: false when an operand is a NaN. -/
def Dbl.gt : Dbl → Dbl → Bool
  | Dbl.nan, _ => false
  | _, Dbl.nan => false
  | Dbl.fin a, Dbl.fin b => decide (a > b)
  | Dbl.posInf, Dbl.posInf => false
  | Dbl.posInf, _ => true
  | Dbl.negInf, _ => false
  | Dbl.fin _, Dbl.posInf => false
  | Dbl.fin _, Dbl.negInf => true

/-- The `<=` of doubles: false when an operand is a NaN. -/
def Dbl.le : Dbl → Dbl → Bool
  | Dbl.nan, _ => false
  | _, Dbl.nan => false
  | Dbl.fin a, Dbl.fin b => decide (a ≤ b)
  | _, Dbl.posInf => true
  | Dbl.negInf, _ => true
  | Dbl.posInf, _ => false
  | Dbl.fin _, Dbl.negInf => false

/-- Lines 50 and 59-78 with `error` as a double: `error` is reset to 0 and the
workers' sum of the `min_distance` of the points, each a finite double between
0 and `numeric_limits<double>::max()`, is added to it. -/
def errorD (inp : Input) (s : State) : Dbl :=
  Dbl.add (Dbl.fin 0)
    ((List.range inp.rows).foldl
      (fun error i => Dbl.add error (Dbl.fin (minDistance inp s.clusters s.labels i)))
      (Dbl.fin 0))

/-- Line 96 on doubles: `std::abs(error - old_error) > epsilon`. -/
def continuesD (epsilon : ℚ) (error old_error : Dbl) : Prop :=
  Dbl.gt (Dbl.abs (Dbl.sub error old_error)) (Dbl.fin epsilon) = true

instance (epsilon : ℚ) (error old_error : Dbl) : Decidable (continuesD epsilon error old_error) := by
  unfold continuesD; infer_instance

/-- The double `E_n` that `error` holds after pass `n`; `E_0` is its initial
value (line 33). -/
def errorSeq (P : Platform) (inp : Input) : Nat → Dbl
  | 0 => Dbl.fin 0
  | n + 1 => errorD inp (passes inp (init P inp) n)

/-- Seven points on the line, in units of 2^505: three at 0, one at 240 and
three at 60; two clusters starting at 120 and -1600, tolerance 1.  The
sentinel is below the square of 128 units.  The first pass writes every label
(all 0) and leaves cluster 1 empty, with its centroid reset to zero. -/
def stray : Input :=
  { rows := 7
    cols := 1
    points := fun i _ =>
      match i with
      | 0 => 0
      | 1 => 0
      | 2 => 0
      | 3 => 240 * 2 ^ 505
      | _ => 60 * 2 ^ 505
    nclusters := 2
    epsilon := 1
    starting_clusters := fun j _ =>
      match j with
      | 0 => 120 * 2 ^ 505
      | _ => -(1600 * 2 ^ 505) }

theorem foldl_setMat_row (g : ℚ → Nat → ℚ) (j c : Nat) (m0 : Nat → Nat → ℚ) :
    (List.range c).foldl (fun m k => setMat m j k (g (m j k) k)) m0
      = fun a b => if a = j ∧ b < c then g (m0 a b) b else m0 a b := by
  induction c with
  | zero => funext a b; simp
  | succ c ih =>
    rw [List.range_succ, List.foldl_append, ih]
    funext a b
    simp only [List.foldl_cons, List.foldl_nil, setMat]
    by_cases ha : a = j
    · by_cases hb : b = c
      · subst ha; subst hb; simp
      · have h1 : b < c + 1 ↔ b < c := by omega
        simp [ha, hb, h1]
    · simp [ha]

theorem zeroRow_apply (cols : Nat) (m : Nat → Nat → ℚ) (i a b : Nat) :
    zeroRow cols m i a b = if a = i ∧ b < cols then 0 else m a b := by
  unfold zeroRow
  rw [foldl_setMat_row (fun _ _ => 0)]

theorem addPoint_apply (inp : Input) (m : Nat → Nat → ℚ) (l i a b : Nat) :
    addPoint inp m l i a b = if a = l ∧ b < inp.cols then m a b + inp.points i b else m a b := by
  unfold addPoint
  rw [foldl_setMat_row (fun x k => x + inp.points i k)]

theorem mergeRow_apply (cols : Nat) (t lc : Nat → Nat → ℚ) (j a b : Nat) :
    mergeRow cols t lc j a b = if a = j ∧ b < cols then t a b + lc a b else t a b := by
  unfold mergeRow
  rw [foldl_setMat_row (fun x k => x + lc j k)]
  by_cases h : a = j ∧ b < cols
  · simp [h]
  · simp [h]

theorem updateRow_apply (cols : Nat) (counts : Nat → Nat) (t cl : Nat → Nat → ℚ) (j a b : Nat) :
    updateRow cols counts t cl j a b
      = if a = j ∧ b < cols then (if counts a ≠ 0 then t a b / (counts a : ℚ) else t a b)
        else cl a b := by
  unfold updateRow
  rw [foldl_setMat_row
    (fun _ k => if counts j ≠ 0 then t j k / (counts j : ℚ) else t j k)]
  by_cases h : a = j ∧ b < cols
  · simp [h]
  · simp [h]

theorem resetAccumulators_eq (K cols : Nat) (cnt : Nat → Nat) (m : Nat → Nat → ℚ) :
    resetAccumulators K cols cnt m
      = (fun a => if a < K then 0 else cnt a,
         fun a b => if a < K ∧ b < cols then 0 else m a b) := by
  unfold resetAccumulators
  induction K with
  | zero => simp
  | succ K ih =>
    rw [List.range_succ, List.foldl_append, ih]
    simp only [List.foldl_cons, List.foldl_nil]
    refine Prod.ext ?_ ?_
    · funext a
      simp only [setVec]
      by_cases h : a = K
      · simp [h]
      · have h1 : a < K + 1 ↔ a < K := by omega
        simp [h, h1]
    · funext a b
      simp only [zeroRow_apply]
      by_cases h : a = K
      · subst h; by_cases hb : b < cols <;> simp [hb]
      · have h1 : a < K + 1 ↔ a < K := by omega
        simp [h, h1]

theorem merge_eq (K cols : Nat) (c : Nat → Nat) (t : Nat → Nat → ℚ)
    (lc : Nat → Nat) (lm : Nat → Nat → ℚ) :
    merge K cols (c, t) lc lm
      = (fun a => if a < K then c a + lc a else c a,
         fun a b => if a < K ∧ b < cols then t a b + lm a b else t a b) := by
  unfold merge
  induction K with
  | zero => simp
  | succ K ih =>
    rw [List.range_succ, List.foldl_append, ih]
    simp only [List.foldl_cons, List.foldl_nil]
    refine Prod.ext ?_ ?_
    · funext a
      simp only [setVec]
      by_cases h : a = K
      · simp [h]
      · have h1 : a < K + 1 ↔ a < K := by omega
        simp [h, h1]
    · funext a b
      simp only [mergeRow_apply]
      by_cases h : a = K
      · subst h; by_cases hb : b < cols <;> simp [hb]
      · have h1 : a < K + 1 ↔ a < K := by omega
        simp [h, h1]

theorem update_apply (K cols : Nat) (counts : Nat → Nat) (t cl : Nat → Nat → ℚ) (a b : Nat) :
    update K cols counts t cl a b
      = if a < K ∧ b < cols then (if counts a ≠ 0 then t a b / (counts a : ℚ) else t a b)
        else cl a b := by
  unfold update
  induction K with
  | zero => simp
  | succ K ih =>
    rw [List.range_succ, List.foldl_append]
    simp only [List.foldl_cons, List.foldl_nil, updateRow_apply, ih]
    by_cases h : a = K
    · subst h; by_cases hb : b < cols <;> simp [hb]
    · have h1 : a < K + 1 ↔ a < K := by omega
      simp [h, h1]

theorem squaredDistance_eq_sum (cols : Nat) (points clusters : Nat → Nat → ℚ) (i j : Nat) :
    squaredDistance cols points clusters i j
      = ∑ k in Finset.range cols, (points i k - clusters j k) ^ 2 := by
  unfold squaredDistance
  induction cols with
  | zero => simp
  | succ c ih => rw [List.range_succ, List.foldl_append, ih, Finset.sum_range_succ]; simp

theorem squaredDistance_nonneg (cols : Nat) (points clusters : Nat → Nat → ℚ) (i j : Nat) :
    0 ≤ squaredDistance cols points clusters i j := by
  rw [squaredDistance_eq_sum]
  exact Finset.sum_nonneg (fun k _ => sq_nonneg _)

/-- The scan of lines 61-71 over the first `n` centroids. -/
theorem nearest_scan (inp : Input) (clusters : Nat → Nat → ℚ) (i label n : Nat) :
    let st := (List.range n).foldl
      (fun (st : Nat × ℚ) j =>
        if squaredDistance inp.cols inp.points clusters i j < st.2
        then (j, squaredDistance inp.cols inp.points clusters i j) else st)
      (label, numeric_limits_max)
    (∀ j, j < n → st.2 ≤ squaredDistance inp.cols inp.points clusters i j) ∧
    ((st = (label, numeric_limits_max)) ∨
      (st.1 < n ∧ st.2 = squaredDistance inp.cols inp.points clusters i st.1 ∧
        st.2 < numeric_limits_max ∧
        ∀ j, j < st.1 → st.2 < squaredDistance inp.cols inp.points clusters i j)) := by
  induction n with
  | zero => simp
  | succ n ih =>
    rw [List.range_succ, List.foldl_append]
    simp only [List.foldl_cons, List.foldl_nil]
    obtain ⟨h1, h2⟩ := ih
    set st := (List.range n).foldl
      (fun (st : Nat × ℚ) j =>
        if squaredDistance inp.cols inp.points clusters i j < st.2
        then (j, squaredDistance inp.cols inp.points clusters i j) else st)
      (label, numeric_limits_max) with hst
    have hle : st.2 ≤ numeric_limits_max := by
      rcases h2 with h | h
      · rw [h]
      · exact le_of_lt h.2.2.1
    by_cases hlt : squaredDistance inp.cols inp.points clusters i n < st.2
    · simp only [hlt, if_true]
      refine ⟨?_, Or.inr ⟨by omega, trivial, lt_of_lt_of_le hlt hle, ?_⟩⟩
      · intro j hj
        rcases Nat.lt_succ_iff_lt_or_eq.mp hj with h | h
        · exact le_of_lt (lt_of_lt_of_le hlt (h1 j h))
        · rw [h]
      · intro j hj
        exact lt_of_lt_of_le hlt (h1 j hj)
    · simp only [hlt, if_false]
      refine ⟨?_, ?_⟩
      · intro j hj
        rcases Nat.lt_succ_iff_lt_or_eq.mp hj with h | h
        · exact h1 j h
        · rw [h]; exact not_lt.mp hlt
      · rcases h2 with h | h
        · exact Or.inl h
        · exact Or.inr ⟨by omega, h.2.1, h.2.2.1, h.2.2.2⟩

/-- The running minimum never exceeds a scanned distance. -/
theorem nearest_le (inp : Input) (clusters : Nat → Nat → ℚ) (i label j : Nat)
    (hj : j < inp.nclusters) :
    (nearest inp clusters i label).2 ≤ squaredDistance inp.cols inp.points clusters i j :=
  (nearest_scan inp clusters i label inp.nclusters).1 j hj

/-- Either no centroid was below the sentinel and nothing was written, or the
scan wrote the first index of the least distance. -/
theorem nearest_cases (inp : Input) (clusters : Nat → Nat → ℚ) (i label : Nat) :
    (nearest inp clusters i label = (label, numeric_limits_max)) ∨
      ((nearest inp clusters i label).1 < inp.nclusters ∧
        (nearest inp clusters i label).2
          = squaredDistance inp.cols inp.points clusters i (nearest inp clusters i label).1 ∧
        (nearest inp clusters i label).2 < numeric_limits_max ∧
        ∀ j, j < (nearest inp clusters i label).1 →
          (nearest inp clusters i label).2 < squaredDistance inp.cols inp.points clusters i j) :=
  (nearest_scan inp clusters i label inp.nclusters).2

/-- When some centroid is below the sentinel, the scan writes a label. -/
theorem nearest_found (inp : Input) (clusters : Nat → Nat → ℚ) (i label : Nat)
    (h : ∃ j, j < inp.nclusters ∧
      squaredDistance inp.cols inp.points clusters i j < numeric_limits_max) :
    (nearest inp clusters i label).1 < inp.nclusters ∧
      (nearest inp clusters i label).2
        = squaredDistance inp.cols inp.points clusters i (nearest inp clusters i label).1 ∧
      (nearest inp clusters i label).2 < numeric_limits_max ∧
      ∀ j, j < (nearest inp clusters i label).1 →
        (nearest inp clusters i label).2 < squaredDistance inp.cols inp.points clusters i j := by
  rcases nearest_cases inp clusters i label with h1 | h1
  · obtain ⟨j, hj, hlt⟩ := h
    have := nearest_le inp clusters i label j hj
    rw [h1] at this
    exact absurd hlt (not_lt.mpr this)
  · exact h1

/-- A label that was in range before the scan is in range after it. -/
theorem nearest_lt_of_lt (inp : Input) (clusters : Nat → Nat → ℚ) (i label : Nat)
    (h : label < inp.nclusters) : (nearest inp clusters i label).1 < inp.nclusters := by
  rcases nearest_cases inp clusters i label with h1 | h1
  · rw [h1]; exact h
  · exact h1.1

theorem assign_range (inp : Input) (clusters : Nat → Nat → ℚ) (a : Accum) (n : Nat) :
    assign inp clusters (List.range n) a =
      { local_clusters := fun j k => a.local_clusters j k +
          (if k < inp.cols then
            ∑ i in Finset.range n, (if newLabel inp clusters a.labels i = j then inp.points i k else 0)
           else 0)
        local_counts := fun j => a.local_counts j +
          ∑ i in Finset.range n, (if newLabel inp clusters a.labels i = j then 1 else 0)
        labels := fun x => if x < n then newLabel inp clusters a.labels x else a.labels x
        error := a.error + ∑ i in Finset.range n, minDistance inp clusters a.labels i } := by
  induction n with
  | zero => simp [assign]
  | succ n ih =>
    unfold assign at ih ⊢
    rw [List.range_succ, List.foldl_append, ih]
    simp only [List.foldl_cons, List.foldl_nil, assignPoint, lt_irrefl, if_false]
    have hn : setVec (fun x => if x < n then newLabel inp clusters a.labels x else a.labels x) n
        (nearest inp clusters n (a.labels n)).1 n = newLabel inp clusters a.labels n := by
      simp [setVec, newLabel]
    rw [hn]
    refine congr (congr (congr (congrArg Accum.mk ?_) ?_) ?_) ?_
    · funext j k
      rw [addPoint_apply, Finset.sum_range_succ]
      by_cases hj : j = newLabel inp clusters a.labels n
      · by_cases hk : k < inp.cols
        · simp [hj, hk]; ring
        · simp [hk]
      · have hj2 : ¬ newLabel inp clusters a.labels n = j := fun h => hj h.symm
        simp [hj, hj2]
    · funext j
      rw [Finset.sum_range_succ]
      simp only [setVec]
      by_cases hj : j = newLabel inp clusters a.labels n
      · simp [hj]; ring
      · have hj2 : ¬ newLabel inp clusters a.labels n = j := fun h => hj h.symm
        simp [hj, hj2]
    · funext x
      simp only [setVec, newLabel]
      by_cases hx : x = n
      · simp [hx]
      · have h1 : x < n + 1 ↔ x < n := by omega
        simp [hx, h1]
    · rw [Finset.sum_range_succ, minDistance]; ring

/-- The fields of the state after one pass, in closed form. -/
theorem pass_labels (inp : Input) (s : State) (x : Nat) :
    (pass inp s).labels x
      = if x < inp.rows then newLabel inp s.clusters s.labels x else s.labels x := by
  simp [pass, assign_range]

theorem pass_error (inp : Input) (s : State) :
    (pass inp s).error = ∑ i in Finset.range inp.rows, minDistance inp s.clusters s.labels i := by
  simp [pass, assign_range]

theorem pass_counts (inp : Input) (s : State) (j : Nat) (hj : j < inp.nclusters) :
    (pass inp s).counts j
      = ((Finset.range inp.rows).filter (fun i => (pass inp s).labels i = j)).card := by
  have hf : (Finset.range inp.rows).filter (fun i => (pass inp s).labels i = j)
      = (Finset.range inp.rows).filter (fun i => newLabel inp s.clusters s.labels i = j) := by
    apply Finset.filter_congr
    intro i hi
    rw [pass_labels, if_pos (Finset.mem_range.mp hi)]
  rw [hf, Finset.card_filter]
  simp [pass, assign_range, merge_eq, resetAccumulators_eq, hj]

theorem pass_temp_clusters (inp : Input) (s : State) (j k : Nat)
    (hj : j < inp.nclusters) (hk : k < inp.cols) :
    (pass inp s).temp_clusters j k
      = ∑ i in (Finset.range inp.rows).filter (fun i => (pass inp s).labels i = j),
          inp.points i k := by
  have hf : (Finset.range inp.rows).filter (fun i => (pass inp s).labels i = j)
      = (Finset.range inp.rows).filter (fun i => newLabel inp s.clusters s.labels i = j) := by
    apply Finset.filter_congr
    intro i hi
    rw [pass_labels, if_pos (Finset.mem_range.mp hi)]
  rw [hf, Finset.sum_filter]
  simp [pass, assign_range, merge_eq, resetAccumulators_eq, hj, hk]

theorem pass_clusters (inp : Input) (s : State) (j k : Nat)
    (hj : j < inp.nclusters) (hk : k < inp.cols) :
    (pass inp s).clusters j k
      = if (pass inp s).counts j ≠ 0
        then (pass inp s).temp_clusters j k / ((pass inp s).counts j : ℚ)
        else (pass inp s).temp_clusters j k := by
  show update _ _ _ _ _ j k = _
  rw [update_apply]
  simp only [hj, hk, and_self, if_true]
  rfl

/-! ## The convergence loop -/

theorem passes_succ_left (inp : Input) (s : State) (n : Nat) :
    passes inp s (n + 1) = passes inp (pass inp s) n := by
  induction n with
  | zero => rfl
  | succ n ih => rw [passes, ih]; rfl

/-- A run of the loop that returns made `n + 1` passes: the exit test failed
after the last one and held after each earlier one. -/
theorem loop_some (inp : Input) (fuel : Nat) (s s' : State) (h : loop inp fuel s = some s') :
    ∃ n, n < fuel ∧ s' = passes inp s (n + 1) ∧ ¬ continues inp s' ∧
      ∀ m, m < n → continues inp (passes inp s (m + 1)) := by
  induction fuel generalizing s with
  | zero => simp [loop] at h
  | succ fuel ih =>
    rw [loop] at h
    by_cases hc : continues inp (pass inp s)
    · rw [if_pos hc] at h
      obtain ⟨n, hn, hs, hstop, hgo⟩ := ih (pass inp s) h
      refine ⟨n + 1, by omega, ?_, hstop, ?_⟩
      · rw [hs, passes_succ_left inp s (n + 1)]
      · intro m hm
        cases m with
        | zero => exact hc
        | succ m =>
          rw [passes_succ_left inp s (m + 1)]
          exact hgo m (by omega)
    · rw [if_neg hc] at h
      refine ⟨0, by omega, ?_, ?_, ?_⟩
      · exact (Option.some.inj h).symm
      · rw [← Option.some.inj h]; exact hc
      · intro m hm; omega

/-- With enough fuel the loop returns after the first pass at which the exit
test fails. -/
theorem loop_of_passes (inp : Input) (n : Nat) :
    ∀ (fuel : Nat) (s : State), n < fuel → ¬ continues inp (passes inp s (n + 1)) →
      (∀ m, m < n → continues inp (passes inp s (m + 1))) →
      loop inp fuel s = some (passes inp s (n + 1)) := by
  induction n with
  | zero =>
    intro fuel s hf hstop _
    cases fuel with
    | zero => omega
    | succ fuel =>
      rw [loop]
      have : passes inp s 1 = pass inp s := rfl
      rw [this] at hstop ⊢
      rw [if_neg hstop]
  | succ n ih =>
    intro fuel s hf hstop hgo
    cases fuel with
    | zero => omega
    | succ fuel =>
      rw [loop]
      have h1 : continues inp (pass inp s) := hgo 0 (by omega)
      rw [if_pos h1, passes_succ_left inp s (n + 1)]
      apply ih fuel (pass inp s) (by omega)
      · rw [← passes_succ_left inp s (n + 1)]; exact hstop
      · intro m hm
        rw [← passes_succ_left inp s (m + 1)]
        exact hgo (m + 1) (by omega)

/-- A returned clustering comes from the state after the last pass. -/
theorem cluster_some (fuel : Nat) (P : Platform) (inp : Input) (r : Clustering)
    (h : cluster fuel P inp = some r) :
    ∃ n, n < fuel ∧ r = finish P inp (pass inp (passes inp (init P inp) n)) ∧
      ¬ continues inp (pass inp (passes inp (init P inp) n)) ∧
      ∀ m, m < n → continues inp (passes inp (init P inp) (m + 1)) := by
  unfold cluster at h
  rcases hl : loop inp fuel (init P inp) with _ | s'
  · rw [hl] at h; simp at h
  · rw [hl] at h
    obtain ⟨n, hn, hs, hstop, hgo⟩ := loop_some inp fuel _ _ hl
    refine ⟨n, hn, ?_, ?_, hgo⟩
    · have : r = finish P inp s' := by simpa using h.symm
      rw [this, hs]; rfl
    · rw [hs] at hstop; exact hstop

/-! ## The radius pass -/

theorem radiusPass_succ (P : Platform) (inp : Input) (clusters : Nat → Nat → ℚ)
    (labels : Nat → Nat) (n : Nat) :
    radiusPass P inp clusters labels (n + 1)
      = radiusPoint P inp clusters labels (radiusPass P inp clusters labels n) n := by
  simp [radiusPass, List.range_succ, List.foldl_append]

/-- Every radius and the maximum radius are at least the initial value. -/
theorem radiusPass_ge_min (P : Platform) (inp : Input) (clusters : Nat → Nat → ℚ)
    (labels : Nat → Nat) (n : Nat) :
    (∀ j, numeric_limits_min ≤ (radiusPass P inp clusters labels n).1 j) ∧
      numeric_limits_min ≤ (radiusPass P inp clusters labels n).2 := by
  induction n with
  | zero => simp [radiusPass]
  | succ n ih =>
    rw [radiusPass_succ]
    obtain ⟨h1, h2⟩ := ih
    simp only [radiusPoint]
    refine ⟨?_, ?_⟩
    · intro j
      split_ifs with h
      · simp only [setVec]
        split_ifs with hj
        · exact le_trans (h1 (labels n)) (le_of_lt h)
        · exact h1 j
      · exact h1 j
    · split_ifs with h
      · exact le_trans h2 (le_of_lt h)
      · exact h2

/-- Each of the first `n` points lies within the radius of its cluster and
within the maximum radius. -/
theorem radiusPass_covers (P : Platform) (inp : Input) (clusters : Nat → Nat → ℚ)
    (labels : Nat → Nat) (n : Nat) :
    ∀ i, i < n →
      P.sqrt (squaredDistance inp.cols inp.points clusters i (labels i))
          ≤ (radiusPass P inp clusters labels n).1 (labels i) ∧
      P.sqrt (squaredDistance inp.cols inp.points clusters i (labels i))
          ≤ (radiusPass P inp clusters labels n).2 := by
  induction n with
  | zero => intro i hi; omega
  | succ n ih =>
    intro i hi
    rw [radiusPass_succ]
    simp only [radiusPoint]
    rcases Nat.lt_succ_iff_lt_or_eq.mp hi with h | h
    · obtain ⟨h1, h2⟩ := ih i h
      refine ⟨?_, ?_⟩
      · split_ifs with hgt
        · simp only [setVec]
          split_ifs with hj
          · exact le_trans h1 (le_trans
              (le_of_eq (congrArg (radiusPass P inp clusters labels n).1 hj)) (le_of_lt hgt))
          · exact h1
        · exact h1
      · split_ifs with hgt
        · exact le_trans h2 (le_of_lt hgt)
        · exact h2
    · subst h
      refine ⟨?_, ?_⟩
      · split_ifs with hgt
        · simp [setVec]
        · exact not_lt.mp hgt
      · split_ifs with hgt
        · exact le_refl _
        · exact not_lt.mp hgt

/-- A radius is the initial value or the distance of a point of the cluster;
the maximum radius is the initial value or the distance of some point. -/
theorem radiusPass_attained (P : Platform) (inp : Input) (clusters : Nat → Nat → ℚ)
    (labels : Nat → Nat) (n : Nat) :
    (∀ j, (radiusPass P inp clusters labels n).1 j = numeric_limits_min ∨
        ∃ i, i < n ∧ labels i = j ∧ (radiusPass P inp clusters labels n).1 j
          = P.sqrt (squaredDistance inp.cols inp.points clusters i (labels i))) ∧
      ((radiusPass P inp clusters labels n).2 = numeric_limits_min ∨
        ∃ i, i < n ∧ (radiusPass P inp clusters labels n).2
          = P.sqrt (squaredDistance inp.cols inp.points clusters i (labels i))) := by
  induction n with
  | zero => simp [radiusPass]
  | succ n ih =>
    rw [radiusPass_succ]
    obtain ⟨h1, h2⟩ := ih
    simp only [radiusPoint]
    refine ⟨?_, ?_⟩
    · intro j
      have keep : (radiusPass P inp clusters labels n).1 j = numeric_limits_min ∨
          ∃ i, i < n + 1 ∧ labels i = j ∧ (radiusPass P inp clusters labels n).1 j
            = P.sqrt (squaredDistance inp.cols inp.points clusters i (labels i)) := by
        rcases h1 j with h | ⟨i, hi, hl, he⟩
        · exact Or.inl h
        · exact Or.inr ⟨i, by omega, hl, he⟩
      split_ifs with hgt
      · simp only [setVec]
        split_ifs with hj
        · exact Or.inr ⟨n, by omega, hj.symm, rfl⟩
        · exact keep
      · exact keep
    · split_ifs with hgt
      · exact Or.inr ⟨n, by omega, rfl⟩
      · rcases h2 with h | ⟨i, hi, he⟩
        · exact Or.inl h
        · exact Or.inr ⟨i, by omega, he⟩

/-- No radius exceeds the maximum radius. -/
theorem radiusPass_le_max (P : Platform) (inp : Input) (clusters : Nat → Nat → ℚ)
    (labels : Nat → Nat) (n : Nat) (j : Nat) :
    (radiusPass P inp clusters labels n).1 j ≤ (radiusPass P inp clusters labels n).2 := by
  rcases (radiusPass_attained P inp clusters labels n).1 j with h | ⟨i, hi, _, he⟩
  · rw [h]; exact (radiusPass_ge_min P inp clusters labels n).2
  · rw [he]; exact (radiusPass_covers P inp clusters labels n i hi).2

/-! ## Labels -/

theorem passes_labels_lt (P : Platform) (inp : Input) (h : startsBelowMax inp) (n : Nat) :
    ∀ i, i < inp.rows → (passes inp (init P inp) (n + 1)).labels i < inp.nclusters := by
  induction n with
  | zero =>
    intro i hi
    show (pass inp (init P inp)).labels i < _
    rw [pass_labels, if_pos hi]
    exact (nearest_found inp _ i _ (h i hi)).1
  | succ n ih =>
    intro i hi
    show (pass inp (passes inp (init P inp) (n + 1))).labels i < _
    rw [pass_labels, if_pos hi]
    exact nearest_lt_of_lt inp _ i _ (ih i hi)

theorem pass_labels_nearest (inp : Input) (s : State) (i : Nat) (hi : i < inp.rows)
    (h : ∃ j, j < inp.nclusters ∧
      squaredDistance inp.cols inp.points s.clusters i j < numeric_limits_max) :
    IsNearest inp s.clusters i ((pass inp s).labels i) := by
  rw [pass_labels, if_pos hi]
  obtain ⟨h1, h2, _, h4⟩ := nearest_found inp s.clusters i (s.labels i) h
  refine ⟨h1, ?_, ?_⟩
  · intro j hj
    unfold newLabel
    rw [← h2]
    exact nearest_le inp s.clusters i (s.labels i) j hj
  · intro j hj
    unfold newLabel at hj ⊢
    rw [← h2]
    exact h4 j hj

theorem sum_counts_of_labels_lt (inp : Input) (s : State)
    (h : ∀ i, i < inp.rows → (pass inp s).labels i < inp.nclusters) :
    ∑ j in Finset.range inp.nclusters, (pass inp s).counts j = inp.rows := by
  have h1 : ∑ j in Finset.range inp.nclusters, (pass inp s).counts j
      = ∑ j in Finset.range inp.nclusters,
          ((Finset.range inp.rows).filter (fun i => (pass inp s).labels i = j)).card := by
    apply Finset.sum_congr rfl
    intro j hj
    exact pass_counts inp s j (Finset.mem_range.mp hj)
  rw [h1, ← Finset.card_eq_sum_card_fiberwise]
  · simp
  · intro i hi
    exact Finset.mem_range.mpr (h i (Finset.mem_range.mp hi))

/-! ## The scenario of the specification -/

theorem scenario_nearest (cl : Nat → Nat → ℚ) (c : ℚ) (hc : c = 0 ∨ c = 1 / 2)
    (h00 : cl 0 0 = 0) (h01 : cl 0 1 = c) (h10 : cl 1 0 = 10) (h11 : cl 1 1 = c) (l : Nat) :
    nearest scenario cl 0 l = (0, c ^ 2) ∧ nearest scenario cl 1 l = (0, (1 - c) ^ 2) ∧
    nearest scenario cl 2 l = (1, c ^ 2) ∧ nearest scenario cl 3 l = (1, (1 - c) ^ 2) := by
  rcases hc with hc | hc <;> subst hc <;>
    simp [nearest, scenario, squaredDistance, List.range_succ, numeric_limits_max,
      h00, h01, h10, h11] <;> norm_num

theorem scenario_pass_labels (s : State) (c : ℚ) (hc : c = 0 ∨ c = 1 / 2)
    (h00 : s.clusters 0 0 = 0) (h01 : s.clusters 0 1 = c)
    (h10 : s.clusters 1 0 = 10) (h11 : s.clusters 1 1 = c) :
    (pass scenario s).labels 0 = 0 ∧ (pass scenario s).labels 1 = 0 ∧
    (pass scenario s).labels 2 = 1 ∧ (pass scenario s).labels 3 = 1 := by
  have hn := fun l => scenario_nearest s.clusters c hc h00 h01 h10 h11 l
  have hr : scenario.rows = 4 := rfl
  refine ⟨?_, ?_, ?_, ?_⟩ <;> rw [pass_labels, hr] <;> simp only [newLabel]
  · rw [(hn _).1]; rfl
  · rw [(hn _).2.1]; rfl
  · rw [(hn _).2.2.1]; rfl
  · rw [(hn _).2.2.2]; rfl

theorem scenario_pass_error (s : State) (c : ℚ) (hc : c = 0 ∨ c = 1 / 2)
    (h00 : s.clusters 0 0 = 0) (h01 : s.clusters 0 1 = c)
    (h10 : s.clusters 1 0 = 10) (h11 : s.clusters 1 1 = c) :
    (pass scenario s).error = 2 * c ^ 2 + 2 * (1 - c) ^ 2 := by
  have hn := fun l => scenario_nearest s.clusters c hc h00 h01 h10 h11 l
  have hr : scenario.rows = 4 := rfl
  rw [pass_error, hr]
  simp only [Finset.sum_range_succ, Finset.sum_range_zero, minDistance]
  rw [(hn _).1, (hn _).2.1, (hn _).2.2.1, (hn _).2.2.2]
  ring

theorem scenario_pass_counts (s : State) (c : ℚ) (hc : c = 0 ∨ c = 1 / 2)
    (h00 : s.clusters 0 0 = 0) (h01 : s.clusters 0 1 = c)
    (h10 : s.clusters 1 0 = 10) (h11 : s.clusters 1 1 = c) :
    (pass scenario s).counts 0 = 2 ∧ (pass scenario s).counts 1 = 2 := by
  obtain ⟨l0, l1, l2, l3⟩ := scenario_pass_labels s c hc h00 h01 h10 h11
  have hr : scenario.rows = 4 := rfl
  have hk : scenario.nclusters = 2 := rfl
  refine ⟨?_, ?_⟩
  · rw [pass_counts scenario s 0 (by rw [hk]; omega), hr, Finset.card_filter]
    simp only [Finset.sum_range_succ, Finset.sum_range_zero, l0, l1, l2, l3]
    norm_num
  · rw [pass_counts scenario s 1 (by rw [hk]; omega), hr, Finset.card_filter]
    simp only [Finset.sum_range_succ, Finset.sum_range_zero, l0, l1, l2, l3]
    norm_num

theorem scenario_pass_clusters (s : State) (c : ℚ) (hc : c = 0 ∨ c = 1 / 2)
    (h00 : s.clusters 0 0 = 0) (h01 : s.clusters 0 1 = c)
    (h10 : s.clusters 1 0 = 10) (h11 : s.clusters 1 1 = c) :
    (pass scenario s).clusters 0 0 = 0 ∧ (pass scenario s).clusters 0 1 = 1 / 2 ∧
    (pass scenario s).clusters 1 0 = 10 ∧ (pass scenario s).clusters 1 1 = 1 / 2 := by
  obtain ⟨l0, l1, l2, l3⟩ := scenario_pass_labels s c hc h00 h01 h10 h11
  obtain ⟨c0, c1⟩ := scenario_pass_counts s c hc h00 h01 h10 h11
  have hr : scenario.rows = 4 := rfl
  have hk : scenario.nclusters = 2 := rfl
  have hd : scenario.cols = 2 := rfl
  have p00 : scenario.points 0 0 = 0 := rfl
  have p01 : scenario.points 0 1 = 0 := rfl
  have p10 : scenario.points 1 0 = 0 := rfl
  have p11 : scenario.points 1 1 = 1 := rfl
  have p20 : scenario.points 2 0 = 10 := rfl
  have p21 : scenario.points 2 1 = 0 := rfl
  have p30 : scenario.points 3 0 = 10 := rfl
  have p31 : scenario.points 3 1 = 1 := rfl
  refine ⟨?_, ?_, ?_, ?_⟩
  · rw [pass_clusters scenario s 0 0 (by rw [hk]; omega) (by rw [hd]; omega),
      pass_temp_clusters scenario s 0 0 (by rw [hk]; omega) (by rw [hd]; omega), hr,
      Finset.sum_filter, c0]
    simp only [Finset.sum_range_succ, Finset.sum_range_zero, l0, l1, l2, l3, p00, p10, p20, p30,
      p01, p11, p21, p31]
    norm_num
  · rw [pass_clusters scenario s 0 1 (by rw [hk]; omega) (by rw [hd]; omega),
      pass_temp_clusters scenario s 0 1 (by rw [hk]; omega) (by rw [hd]; omega), hr,
      Finset.sum_filter, c0]
    simp only [Finset.sum_range_succ, Finset.sum_range_zero, l0, l1, l2, l3, p00, p10, p20, p30,
      p01, p11, p21, p31]
    norm_num
  · rw [pass_clusters scenario s 1 0 (by rw [hk]; omega) (by rw [hd]; omega),
      pass_temp_clusters scenario s 1 0 (by rw [hk]; omega) (by rw [hd]; omega), hr,
      Finset.sum_filter, c1]
    simp only [Finset.sum_range_succ, Finset.sum_range_zero, l0, l1, l2, l3, p00, p10, p20, p30,
      p01, p11, p21, p31]
    norm_num
  · rw [pass_clusters scenario s 1 1 (by rw [hk]; omega) (by rw [hd]; omega),
      pass_temp_clusters scenario s 1 1 (by rw [hk]; omega) (by rw [hd]; omega), hr,
      Finset.sum_filter, c1]
    simp only [Finset.sum_range_succ, Finset.sum_range_zero, l0, l1, l2, l3, p00, p10, p20, p30,
      p01, p11, p21, p31]
    norm_num

theorem scenario_first_pass (P : Platform) :
    (pass scenario (init P scenario)).clusters 0 0 = 0 ∧
    (pass scenario (init P scenario)).clusters 0 1 = 1 / 2 ∧
    (pass scenario (init P scenario)).clusters 1 0 = 10 ∧
    (pass scenario (init P scenario)).clusters 1 1 = 1 / 2 ∧
    (pass scenario (init P scenario)).error = 2 ∧
    (pass scenario (init P scenario)).old_error = 0 := by
  have h := scenario_pass_clusters (init P scenario) 0 (Or.inl rfl) rfl rfl rfl rfl
  have he := scenario_pass_error (init P scenario) 0 (Or.inl rfl) rfl rfl rfl rfl
  refine ⟨h.1, h.2.1, h.2.2.1, h.2.2.2, ?_, rfl⟩
  rw [he]; norm_num

theorem scenario_later_pass (s : State)
    (h00 : s.clusters 0 0 = 0) (h01 : s.clusters 0 1 = 1 / 2)
    (h10 : s.clusters 1 0 = 10) (h11 : s.clusters 1 1 = 1 / 2) :
    (pass scenario s).clusters 0 0 = 0 ∧ (pass scenario s).clusters 0 1 = 1 / 2 ∧
    (pass scenario s).clusters 1 0 = 10 ∧ (pass scenario s).clusters 1 1 = 1 / 2 ∧
    (pass scenario s).error = 1 ∧ (pass scenario s).old_error = s.error := by
  have h := scenario_pass_clusters s (1 / 2) (Or.inr rfl) h00 h01 h10 h11
  have he := scenario_pass_error s (1 / 2) (Or.inr rfl) h00 h01 h10 h11
  refine ⟨h.1, h.2.1, h.2.2.1, h.2.2.2, ?_, rfl⟩
  rw [he]; norm_num

/-- On the scenario the loop makes exactly three passes. -/
theorem scenario_loop (P : Platform) (fuel : Nat) (hf : 3 ≤ fuel) :
    loop scenario fuel (init P scenario) = some (passes scenario (init P scenario) 3) := by
  obtain ⟨a00, a01, a10, a11, ae, ao⟩ := scenario_first_pass P
  obtain ⟨b00, b01, b10, b11, be, bo⟩ :=
    scenario_later_pass (pass scenario (init P scenario)) a00 a01 a10 a11
  obtain ⟨_, _, _, _, ce, co⟩ :=
    scenario_later_pass (pass scenario (pass scenario (init P scenario))) b00 b01 b10 b11
  have heps : scenario.epsilon = 1 / 1000000 := rfl
  apply loop_of_passes scenario 2 fuel (init P scenario) (by omega)
  · show ¬ continues scenario (pass scenario (pass scenario (pass scenario (init P scenario))))
    unfold continues
    rw [ce, co, be, heps]; norm_num
  · intro m hm
    interval_cases m
    · show continues scenario (pass scenario (init P scenario))
      unfold continues
      rw [ae, ao, heps]; norm_num
    · show continues scenario (pass scenario (pass scenario (init P scenario)))
      unfold continues
      rw [be, bo, ae, heps]; norm_num

/-- With fewer than three passes allowed the loop has not exited. -/
theorem scenario_loop_short (P : Platform) (fuel : Nat) (hf : fuel < 3) :
    loop scenario fuel (init P scenario) = none := by
  rcases h : loop scenario fuel (init P scenario) with _ | s
  · rfl
  · exfalso
    obtain ⟨n, hn, hs, hstop, _⟩ := loop_some scenario fuel _ _ h
    obtain ⟨a00, a01, a10, a11, ae, ao⟩ := scenario_first_pass P
    obtain ⟨_, _, _, _, be, bo⟩ :=
      scenario_later_pass (pass scenario (init P scenario)) a00 a01 a10 a11
    have heps : scenario.epsilon = 1 / 1000000 := rfl
    have g1 : continues scenario (passes scenario (init P scenario) 1) := by
      show continues scenario (pass scenario (init P scenario))
      unfold continues
      rw [ae, ao, heps]; norm_num
    have g2 : continues scenario (passes scenario (init P scenario) 2) := by
      show continues scenario (pass scenario (pass scenario (init P scenario)))
      unfold continues
      rw [be, bo, ae, heps]; norm_num
    rw [hs] at hstop
    have hn3 : n < 2 := by omega
    interval_cases n
    · exact hstop g1
    · exact hstop g2

/-- The state the scenario ends in. -/
theorem scenario_final (P : Platform) :
    let s := passes scenario (init P scenario) 3
    s.clusters 0 0 = 0 ∧ s.clusters 0 1 = 1 / 2 ∧ s.clusters 1 0 = 10 ∧ s.clusters 1 1 = 1 / 2 ∧
    s.labels 0 = 0 ∧ s.labels 1 = 0 ∧ s.labels 2 = 1 ∧ s.labels 3 = 1 ∧
    s.counts 0 = 2 ∧ s.counts 1 = 2 := by
  obtain ⟨a00, a01, a10, a11, _, _⟩ := scenario_first_pass P
  obtain ⟨b00, b01, b10, b11, _, _⟩ :=
    scenario_later_pass (pass scenario (init P scenario)) a00 a01 a10 a11
  have hc := scenario_pass_clusters (pass scenario (pass scenario (init P scenario))) (1 / 2)
    (Or.inr rfl) b00 b01 b10 b11
  have hl := scenario_pass_labels (pass scenario (pass scenario (init P scenario))) (1 / 2)
    (Or.inr rfl) b00 b01 b10 b11
  have hn := scenario_pass_counts (pass scenario (pass scenario (init P scenario))) (1 / 2)
    (Or.inr rfl) b00 b01 b10 b11
  exact ⟨hc.1, hc.2.1, hc.2.2.1, hc.2.2.2, hl.1, hl.2.1, hl.2.2.1, hl.2.2.2, hn.1, hn.2⟩

/-- The radius pass of the scenario, for a square root exact at 1/4. -/
theorem scenario_radii (P : Platform) (hsqrt : P.sqrt (1 / 4) = 1 / 2)
    (cl : Nat → Nat → ℚ) (lb : Nat → Nat)
    (h00 : cl 0 0 = 0) (h01 : cl 0 1 = 1 / 2) (h10 : cl 1 0 = 10) (h11 : cl 1 1 = 1 / 2)
    (l0 : lb 0 = 0) (l1 : lb 1 = 0) (l2 : lb 2 = 1) (l3 : lb 3 = 1) :
    (radiusPass P scenario cl lb 4).1 0 = 1 / 2 ∧ (radiusPass P scenario cl lb 4).1 1 = 1 / 2 ∧
    (radiusPass P scenario cl lb 4).2 = 1 / 2 := by
  have d0 : squaredDistance scenario.cols scenario.points cl 0 0 = 1 / 4 := by
    simp [squaredDistance, scenario, List.range_succ, h00, h01]; norm_num
  have d1 : squaredDistance scenario.cols scenario.points cl 1 0 = 1 / 4 := by
    simp [squaredDistance, scenario, List.range_succ, h00, h01]; norm_num
  have d2 : squaredDistance scenario.cols scenario.points cl 2 1 = 1 / 4 := by
    simp [squaredDistance, scenario, List.range_succ, h10, h11]; norm_num
  have d3 : squaredDistance scenario.cols scenario.points cl 3 1 = 1 / 4 := by
    simp [squaredDistance, scenario, List.range_succ, h10, h11]; norm_num
  have hmin : numeric_limits_min < 2⁻¹ := by norm_num [numeric_limits_min]
  simp only [radiusPass, List.range_succ, List.range_zero, List.nil_append, List.foldl_append,
    List.foldl_cons, List.foldl_nil, radiusPoint, l0, l1, l2, l3, d0, d1, d2, d3, hsqrt]
  simp [setVec, hmin]

/-! ## Coinciding points and centroids -/

theorem numeric_limits_max_pos : 0 < numeric_limits_max := by
  norm_num [numeric_limits_max]

theorem numeric_limits_min_pos : 0 < numeric_limits_min := by
  norm_num [numeric_limits_min]

theorem scenario_returns :
    cluster 3 platform0 scenario
      = some (finish platform0 scenario (passes scenario (init platform0 scenario) 3)) := by
  unfold cluster
  rw [scenario_loop platform0 3 (le_refl 3)]
  rfl

theorem scenario_startsBelowMax : startsBelowMax scenario := by
  intro i hi
  have hr : scenario.rows = 4 := rfl
  rw [hr] at hi
  interval_cases i
  · exact ⟨0, by decide, by decide!⟩
  · exact ⟨0, by decide, by decide!⟩
  · exact ⟨1, by decide, by decide!⟩
  · exact ⟨1, by decide, by decide!⟩

theorem staleInput_returns :
    cluster 1 platform0 staleInput
      = some (finish platform0 staleInput (pass staleInput (init platform0 staleInput))) := by
  unfold cluster
  rw [loop_of_passes staleInput 0 1 (init platform0 staleInput) (by omega) (by decide!)
    (by intro m hm; omega)]
  rfl

theorem twins_returns :
    cluster 3 platform0 twins
      = some (finish platform0 twins (passes twins (init platform0 twins) 3)) := by
  unfold cluster
  rw [loop_of_passes twins 2 3 (init platform0 twins) (by omega) (by decide!)
    (by intro m hm; interval_cases m <;> decide!)]
  rfl

theorem vacated_returns :
    cluster 1 platform0 vacated
      = some (finish platform0 vacated (pass vacated (init platform0 vacated))) := by
  unfold cluster
  rw [loop_of_passes vacated 0 1 (init platform0 vacated) (by omega) (by decide!)
    (by intro m hm; omega)]
  rfl

theorem sqrtExact_sq_nat (n : Nat) : sqrtExact (((n * n : Nat) : ℚ)) = n := by
  unfold sqrtExact
  rw [Rat.num_natCast, Rat.den_natCast, Int.toNat_natCast, Nat.sqrt_eq]
  simp

theorem sqrtExact_far : sqrtExact (2 ^ 1200) = 2 ^ 600 := by
  have h := sqrtExact_sq_nat (2 ^ 600)
  have e : (((2 ^ 600 * 2 ^ 600 : Nat)) : ℚ) = 2 ^ 1200 := by norm_num
  rw [e] at h
  rw [h]; norm_num

theorem farPoint_returns :
    cluster 2 platform0 farPoint
      = some (finish platform0 farPoint (passes farPoint (init platform0 farPoint) 2)) := by
  unfold cluster
  rw [loop_of_passes farPoint 1 2 (init platform0 farPoint) (by omega) (by decide!)
    (by intro m hm; interval_cases m; decide!)]
  rfl

/-! ## The error of a pass -/

theorem minDistance_nonneg (inp : Input) (clusters : Nat → Nat → ℚ) (labels : Nat → Nat)
    (i : Nat) : 0 ≤ minDistance inp clusters labels i := by
  unfold minDistance
  rcases nearest_cases inp clusters i (labels i) with h | h
  · rw [h]; exact le_of_lt numeric_limits_max_pos
  · rw [h.2.1]; exact squaredDistance_nonneg _ _ _ _ _

theorem pass_error_nonneg (inp : Input) (s : State) : 0 ≤ (pass inp s).error := by
  rw [pass_error]
  exact Finset.sum_nonneg (fun i _ => minDistance_nonneg inp _ _ i)

theorem numeric_limits_max_lt_threshold : numeric_limits_max < overflow_threshold := by
  norm_num [numeric_limits_max, overflow_threshold]

/-- C1 (as stated, refuted): on `staleInput` (1 ≤ K ≤ R, epsilon > 0) the run
returns after one pass; point 2 keeps label 0, chosen against the starting
centroids, although row 1 of the returned `clusters` is strictly closer to it
than row 0. -/
theorem C1_counterexample :
    ∃ r, cluster 1 platform0 staleInput = some r ∧
      1 ≤ staleInput.nclusters ∧ staleInput.nclusters ≤ staleInput.rows ∧
      0 < staleInput.epsilon ∧ r.labels 2 = 0 ∧
      squaredDistance staleInput.cols staleInput.points r.clusters 2 1
        < squaredDistance staleInput.cols staleInput.points r.clusters 2 0 ∧
      ¬ IsNearest staleInput r.clusters 2 (r.labels 2) := by
  refine ⟨_, staleInput_returns, by decide, by decide, by decide!, by decide!, by decide!, ?_⟩
  intro h
  have h1 := h.2.1 1 (by decide)
  exact absurd h1 (by decide!)

/-- C1 (amended): when `cluster` returns, the returned labels are those of the
last pass: for every point with some centroid below the sentinel, `labels[i]`
is the lowest index of a centroid at least squared distance among the
centroids as they stood at the start of the last pass (before its update). -/
theorem C1_labels_nearest_before_last_update (fuel : Nat) (P : Platform) (inp : Input)
    (r : Clustering) (h : cluster fuel P inp = some r) :
    ∃ n, n < fuel ∧ r = finish P inp (pass inp (passes inp (init P inp) n)) ∧
      ¬ continues inp (pass inp (passes inp (init P inp) n)) ∧
      (∀ m, m < n → continues inp (passes inp (init P inp) (m + 1))) ∧
      ∀ i, i < inp.rows →
        (∃ j, j < inp.nclusters ∧
          squaredDistance inp.cols inp.points (passes inp (init P inp) n).clusters i j
            < numeric_limits_max) →
        IsNearest inp (passes inp (init P inp) n).clusters i (r.labels i) := by
  obtain ⟨n, hn, hr, hstop, hgo⟩ := cluster_some fuel P inp r h
  refine ⟨n, hn, hr, hstop, hgo, ?_⟩
  intro i hi hj
  rw [hr]
  exact pass_labels_nearest inp _ i hi hj

/-- Witness of C1 (amended) on the scenario: the run makes three passes, and
the label of point 3 is nearest among the centroids entering the third. -/
theorem C1_labels_nearest_before_last_update_witness :
    cluster 3 platform0 scenario
        = some (finish platform0 scenario (passes scenario (init platform0 scenario) 3)) ∧
      3 < scenario.rows ∧
      (∃ j, j < scenario.nclusters ∧
        squaredDistance scenario.cols scenario.points
          (passes scenario (init platform0 scenario) 2).clusters 3 j < numeric_limits_max) ∧
      IsNearest scenario (passes scenario (init platform0 scenario) 2).clusters 3
        ((finish platform0 scenario (passes scenario (init platform0 scenario) 3)).labels 3) := by
  refine ⟨scenario_returns, by decide, ⟨1, by decide, by decide!⟩, ?_⟩
  obtain ⟨n, hn, _, hstop, _, hnear⟩ :=
    C1_labels_nearest_before_last_update 3 platform0 scenario _ scenario_returns
  have h2 : n = 2 := by
    interval_cases n
    · exact absurd (by decide! : continues scenario (pass scenario
        (passes scenario (init platform0 scenario) 0))) hstop
    · exact absurd (by decide! : continues scenario (pass scenario
        (passes scenario (init platform0 scenario) 1))) hstop
    · rfl
  subst h2
  exact hnear 3 (by decide) ⟨1, by decide, by decide!⟩

/-- C2: when `cluster` returns, the distance the radius pass computes between
point `i` and the returned centroid of its label is at most the returned
radius of that label. -/
theorem C2_point_within_radius (fuel : Nat) (P : Platform) (inp : Input) (r : Clustering)
    (h : cluster fuel P inp = some r) (i : Nat) (hi : i < inp.rows) :
    pointRadius P inp r i ≤ r.radii (r.labels i) := by
  obtain ⟨n, _, hr, _, _⟩ := cluster_some fuel P inp r h
  rw [hr]
  exact (radiusPass_covers P inp _ _ inp.rows i hi).1

/-- Witness of C2 on the scenario, at point 1. -/
theorem C2_point_within_radius_witness :
    cluster 3 platform0 scenario
        = some (finish platform0 scenario (passes scenario (init platform0 scenario) 3)) ∧
      1 < scenario.rows ∧
      pointRadius platform0 scenario
          (finish platform0 scenario (passes scenario (init platform0 scenario) 3)) 1
        ≤ (finish platform0 scenario (passes scenario (init platform0 scenario) 3)).radii
            ((finish platform0 scenario (passes scenario (init platform0 scenario) 3)).labels 1) :=
  ⟨scenario_returns, by decide,
    C2_point_within_radius 3 platform0 scenario _ scenario_returns 1 (by decide)⟩

/-- C3: on the scenario of the specification, for every platform whose square
root of 1/4 is 1/2 and every fuel of at least three passes, `cluster` returns
centroids (0, 1/2) and (10, 1/2), labels 0, 0, 1, 1, counts 2, 2, radii 1/2,
1/2 and maximum radius 1/2. -/
theorem C3_scenario (P : Platform) (hsqrt : P.sqrt (1 / 4) = 1 / 2) (fuel : Nat)
    (hf : 3 ≤ fuel) :
    ∃ r, cluster fuel P scenario = some r ∧ scenarioExpected r := by
  refine ⟨finish P scenario (passes scenario (init P scenario) 3), ?_, ?_⟩
  · unfold cluster
    rw [scenario_loop P fuel hf]
    rfl
  · obtain ⟨c00, c01, c10, c11, l0, l1, l2, l3, n0, n1⟩ := scenario_final P
    obtain ⟨r0, r1, rm⟩ := scenario_radii P hsqrt _ _ c00 c01 c10 c11 l0 l1 l2 l3
    exact ⟨c00, c01, c10, c11, l0, l1, l2, l3, n0, n1, r0, r1, rm⟩

/-- Witness of C3 with `platform0` and three passes of fuel. -/
theorem C3_scenario_witness :
    platform0.sqrt (1 / 4) = 1 / 2 ∧ 3 ≤ 3 ∧
      ∃ r, cluster 3 platform0 scenario = some r ∧ scenarioExpected r :=
  ⟨by decide!, by decide, C3_scenario platform0 (by decide!) 3 (by decide)⟩

/-- C4 (as stated, refuted): on `farPoint` (K = 1) the only squared distance
is not below the sentinel, `labels[0]` is never written and keeps the
uninitialised content 7, and the counts of the one cluster sum to 0, not to
the number of points, after the first pass and in the returned result. -/
theorem C4_counterexample :
    1 ≤ farPoint.nclusters ∧
      numeric_limits_max
        ≤ squaredDistance farPoint.cols farPoint.points farPoint.starting_clusters 0 0 ∧
      ∑ j in Finset.range farPoint.nclusters,
          (passes farPoint (init platform0 farPoint) 1).counts j ≠ farPoint.rows ∧
      ∃ r, cluster 2 platform0 farPoint = some r ∧
        ∑ j in Finset.range farPoint.nclusters, r.counts j ≠ farPoint.rows :=
  ⟨by decide, by decide!, by decide!, _, farPoint_returns, by decide!⟩

/-- C4 (amended): when every point starts with a centroid at a squared
distance below the sentinel (so that every label is written), the counts over
the `nclusters` clusters sum to the number of points after every pass of the
loop and in the returned result. -/
theorem C4_counts_sum_to_rows (P : Platform) (inp : Input) (h : startsBelowMax inp) :
    (∀ n, ∑ j in Finset.range inp.nclusters, (passes inp (init P inp) (n + 1)).counts j
        = inp.rows) ∧
    (∀ fuel r, cluster fuel P inp = some r →
      ∑ j in Finset.range inp.nclusters, r.counts j = inp.rows) := by
  have key : ∀ n, ∑ j in Finset.range inp.nclusters,
      (passes inp (init P inp) (n + 1)).counts j = inp.rows := by
    intro n
    exact sum_counts_of_labels_lt inp (passes inp (init P inp) n)
      (passes_labels_lt P inp h n)
  refine ⟨key, ?_⟩
  intro fuel r hr
  obtain ⟨n, _, hfin, _, _⟩ := cluster_some fuel P inp r hr
  rw [hfin]
  exact key n

/-- Witness of C4 (amended) on the scenario: after the second pass and in the result. -/
theorem C4_counts_sum_to_rows_witness :
    startsBelowMax scenario ∧
      ∑ j in Finset.range scenario.nclusters,
          (passes scenario (init platform0 scenario) (1 + 1)).counts j = scenario.rows ∧
      cluster 3 platform0 scenario
        = some (finish platform0 scenario (passes scenario (init platform0 scenario) 3)) ∧
      ∑ j in Finset.range scenario.nclusters,
        (finish platform0 scenario (passes scenario (init platform0 scenario) 3)).counts j
          = scenario.rows :=
  ⟨scenario_startsBelowMax,
    (C4_counts_sum_to_rows platform0 scenario scenario_startsBelowMax).1 1,
    scenario_returns,
    (C4_counts_sum_to_rows platform0 scenario scenario_startsBelowMax).2 3 _ scenario_returns⟩

/-- C5 (as stated, refuted): on `farPoint` (K = 1) the run returns with
`labels[0]` never written (uninitialised content 7); the radius of the one
cluster stays `numeric_limits<double>::min()` while `max_radius` is 2^600, so
`max_radius` is the radius of no cluster. -/
theorem C5_counterexample :
    ∃ r, cluster 2 platform0 farPoint = some r ∧ 1 ≤ farPoint.nclusters ∧
      r.radii 0 = numeric_limits_min ∧ r.max_radius = 2 ^ 600 ∧
      ¬ ∃ j, j < farPoint.nclusters ∧ r.radii j = r.max_radius := by
  have hlab : (passes farPoint (init platform0 farPoint) 2).labels 0 = 7 := by decide!
  have hsq : squaredDistance farPoint.cols farPoint.points
      (passes farPoint (init platform0 farPoint) 2).clusters 0 7 = 2 ^ 1200 := by decide!
  have hmin : numeric_limits_min < 2 ^ 600 := by norm_num [numeric_limits_min]
  have hp : platform0.sqrt = sqrtExact := rfl
  have hr0 : (finish platform0 farPoint (passes farPoint (init platform0 farPoint) 2)).radii 0
      = numeric_limits_min := by
    show (radiusPass platform0 farPoint _ _ 1).1 0 = _
    rw [radiusPass_succ]
    simp only [radiusPoint, hlab, hsq, hp, sqrtExact_far]
    simp [radiusPass, setVec, hmin]
  have hrm : (finish platform0 farPoint (passes farPoint (init platform0 farPoint) 2)).max_radius
      = 2 ^ 600 := by
    show (radiusPass platform0 farPoint _ _ 1).2 = _
    rw [radiusPass_succ]
    simp only [radiusPoint, hlab, hsq, hp, sqrtExact_far]
    simp [radiusPass, hmin]
  refine ⟨_, farPoint_returns, by decide, hr0, hrm, ?_⟩
  rintro ⟨j, hj, he⟩
  have hK : farPoint.nclusters = 1 := rfl
  rw [hK] at hj
  interval_cases j
  rw [hr0, hrm] at he
  exact absurd he (ne_of_lt hmin)

/-- C5 (amended): for `nclusters ≥ 1` and every point starting with a centroid
at a squared distance below the sentinel, when `cluster` returns every
returned radius is at least 0, no radius of a cluster exceeds `max_radius`,
and `max_radius` is the radius of one of the `nclusters` clusters. -/
theorem C5_radii_nonneg_max_radius (fuel : Nat) (P : Platform) (inp : Input) (r : Clustering)
    (hK : 1 ≤ inp.nclusters) (hs : startsBelowMax inp) (h : cluster fuel P inp = some r) :
    (∀ j, 0 ≤ r.radii j) ∧ (∀ j, j < inp.nclusters → r.radii j ≤ r.max_radius) ∧
      ∃ j, j < inp.nclusters ∧ r.radii j = r.max_radius := by
  obtain ⟨n, _, hfin, _, _⟩ := cluster_some fuel P inp r h
  have hlab := passes_labels_lt P inp hs n
  rw [hfin]
  refine ⟨?_, ?_, ?_⟩
  · intro j
    exact le_trans (le_of_lt numeric_limits_min_pos) ((radiusPass_ge_min P inp _ _ inp.rows).1 j)
  · intro j _
    exact radiusPass_le_max P inp _ _ inp.rows j
  · show ∃ j, j < inp.nclusters ∧
      (radiusPass P inp _ _ inp.rows).1 j = (radiusPass P inp _ _ inp.rows).2
    rcases (radiusPass_attained P inp (pass inp (passes inp (init P inp) n)).clusters
      (pass inp (passes inp (init P inp) n)).labels inp.rows).2 with hm | ⟨i, hi, hm⟩
    · refine ⟨0, hK, le_antisymm (radiusPass_le_max P inp _ _ inp.rows 0) ?_⟩
      rw [hm]
      exact (radiusPass_ge_min P inp _ _ inp.rows).1 0
    · refine ⟨(pass inp (passes inp (init P inp) n)).labels i, hlab i hi,
        le_antisymm (radiusPass_le_max P inp _ _ inp.rows _) ?_⟩
      rw [hm]
      exact (radiusPass_covers P inp _ _ inp.rows i hi).1

/-- Witness of C5 (amended) on the scenario: the radius of cluster 1. -/
theorem C5_radii_nonneg_max_radius_witness :
    1 ≤ scenario.nclusters ∧ startsBelowMax scenario ∧
      cluster 3 platform0 scenario
        = some (finish platform0 scenario (passes scenario (init platform0 scenario) 3)) ∧
      0 ≤ (finish platform0 scenario (passes scenario (init platform0 scenario) 3)).radii 1 ∧
      (finish platform0 scenario (passes scenario (init platform0 scenario) 3)).radii 1
        ≤ (finish platform0 scenario (passes scenario (init platform0 scenario) 3)).max_radius ∧
      ∃ j, j < scenario.nclusters ∧
        (finish platform0 scenario (passes scenario (init platform0 scenario) 3)).radii j
          = (finish platform0 scenario
              (passes scenario (init platform0 scenario) 3)).max_radius :=
  ⟨by decide, scenario_startsBelowMax, scenario_returns,
    (C5_radii_nonneg_max_radius 3 platform0 scenario _ (by decide) scenario_startsBelowMax
      scenario_returns).1 1,
    (C5_radii_nonneg_max_radius 3 platform0 scenario _ (by decide) scenario_startsBelowMax
      scenario_returns).2.1 1 (by decide),
    (C5_radii_nonneg_max_radius 3 platform0 scenario _ (by decide) scenario_startsBelowMax
      scenario_returns).2.2⟩

/-- C6: when `cluster` returns, every coordinate of the returned centroid of a
cluster with a positive count is the sum of that coordinate over the points
whose returned label is the cluster, divided by the cluster's count. -/
theorem C6_centroid_is_mean (fuel : Nat) (P : Platform) (inp : Input) (r : Clustering)
    (h : cluster fuel P inp = some r) (j : Nat) (hj : j < inp.nclusters)
    (hc : 0 < r.counts j) (k : Nat) (hk : k < inp.cols) :
    r.clusters j k
      = (∑ i in (Finset.range inp.rows).filter (fun i => r.labels i = j), inp.points i k)
          / (r.counts j : ℚ) := by
  obtain ⟨n, _, hfin, _, _⟩ := cluster_some fuel P inp r h
  rw [hfin] at hc ⊢
  show (pass inp (passes inp (init P inp) n)).clusters j k = _
  rw [pass_clusters inp _ j k hj hk, pass_temp_clusters inp _ j k hj hk]
  have hne : (pass inp (passes inp (init P inp) n)).counts j ≠ 0 := Nat.pos_iff_ne_zero.mp hc
  rw [if_pos hne]
  rfl

/-- Witness of C6 on the scenario: cluster 1, coordinate 1. -/
theorem C6_centroid_is_mean_witness :
    cluster 3 platform0 scenario
        = some (finish platform0 scenario (passes scenario (init platform0 scenario) 3)) ∧
      1 < scenario.nclusters ∧
      0 < (finish platform0 scenario (passes scenario (init platform0 scenario) 3)).counts 1 ∧
      1 < scenario.cols ∧
      (finish platform0 scenario (passes scenario (init platform0 scenario) 3)).clusters 1 1
        = (∑ i in (Finset.range scenario.rows).filter
              (fun i => (finish platform0 scenario
                (passes scenario (init platform0 scenario) 3)).labels i = 1),
            scenario.points i 1)
          / ((finish platform0 scenario
              (passes scenario (init platform0 scenario) 3)).counts 1 : ℚ) :=
  ⟨scenario_returns, by decide, by decide!, by decide,
    C6_centroid_is_mean 3 platform0 scenario _ scenario_returns 1 (by decide) (by decide!) 1
      (by decide)⟩

/-- C7: when `cluster` returns, every coordinate of the returned centroid of a
cluster whose returned count is 0 is exactly 0. -/
theorem C7_empty_cluster_centroid_zero (fuel : Nat) (P : Platform) (inp : Input)
    (r : Clustering) (h : cluster fuel P inp = some r) (j : Nat) (hj : j < inp.nclusters)
    (hc : r.counts j = 0) (k : Nat) (hk : k < inp.cols) :
    r.clusters j k = 0 := by
  obtain ⟨n, _, hfin, _, _⟩ := cluster_some fuel P inp r h
  rw [hfin] at hc ⊢
  show (pass inp (passes inp (init P inp) n)).clusters j k = 0
  have hc' : (pass inp (passes inp (init P inp) n)).counts j = 0 := hc
  rw [pass_clusters inp _ j k hj hk, pass_temp_clusters inp _ j k hj hk]
  rw [pass_counts inp _ j hj, Finset.card_eq_zero] at hc'
  rw [hc']
  simp

/-- Witness of C7 on `vacated`: cluster 1 starts at 5, gets no point, and its
returned centroid is 0. -/
theorem C7_empty_cluster_centroid_zero_witness :
    cluster 1 platform0 vacated
        = some (finish platform0 vacated (pass vacated (init platform0 vacated))) ∧
      1 < vacated.nclusters ∧
      (finish platform0 vacated (pass vacated (init platform0 vacated))).counts 1 = 0 ∧
      0 < vacated.cols ∧ vacated.starting_clusters 1 0 = 5 ∧
      (finish platform0 vacated (pass vacated (init platform0 vacated))).clusters 1 0 = 0 :=
  ⟨vacated_returns, by decide, by decide!, by decide, by decide!,
    C7_empty_cluster_centroid_zero 1 platform0 vacated _ vacated_returns 1 (by decide)
      (by decide!) 0 (by decide)⟩

/-- C9 (as stated, refuted): on `twins` the run returns with both points
assigned to cluster 0 at distance 0 from its returned centroid, so the maximum
of the distances of the assigned points is 0, but the returned radius of
cluster 0 is `numeric_limits<double>::min()`, the distance of no point. -/
theorem C9_counterexample :
    ∃ r, cluster 3 platform0 twins = some r ∧ 1 ≤ twins.nclusters ∧
      r.labels 0 = 0 ∧ r.labels 1 = 0 ∧
      pointRadius platform0 twins r 0 = 0 ∧ pointRadius platform0 twins r 1 = 0 ∧
      r.radii 0 = numeric_limits_min ∧
      ¬ ∃ i, i < twins.rows ∧ r.labels i = 0 ∧ r.radii 0 = pointRadius platform0 twins r i := by
  refine ⟨_, twins_returns, by decide, by decide!, by decide!, by decide!, by decide!,
    by decide!, ?_⟩
  rintro ⟨i, hi, _, he⟩
  have hr : twins.rows = 2 := rfl
  rw [hr] at hi
  interval_cases i
  · exact absurd he (by decide!)
  · exact absurd he (by decide!)

/-- C9 (amended): when `cluster` returns, the returned radius of every cluster
`j` is the greatest of `numeric_limits<double>::min()` and the distances from
the points labelled `j` to the returned centroid of `j`: it is at least each
of them and equal to one of them. -/
theorem C9_radius_is_floored_maximum (fuel : Nat) (P : Platform) (inp : Input)
    (r : Clustering) (h : cluster fuel P inp = some r) (j : Nat) :
    numeric_limits_min ≤ r.radii j ∧
      (∀ i, i < inp.rows → r.labels i = j → pointRadius P inp r i ≤ r.radii j) ∧
      (r.radii j = numeric_limits_min ∨
        ∃ i, i < inp.rows ∧ r.labels i = j ∧ r.radii j = pointRadius P inp r i) := by
  obtain ⟨n, _, hfin, _, _⟩ := cluster_some fuel P inp r h
  rw [hfin]
  refine ⟨(radiusPass_ge_min P inp _ _ inp.rows).1 j, ?_,
    (radiusPass_attained P inp _ _ inp.rows).1 j⟩
  intro i hi hl
  have := (radiusPass_covers P inp (pass inp (passes inp (init P inp) n)).clusters
    (pass inp (passes inp (init P inp) n)).labels inp.rows i hi).1
  have hl' : (pass inp (passes inp (init P inp) n)).labels i = j := hl
  exact le_trans this (le_of_eq (congrArg (radiusPass P inp
    (pass inp (passes inp (init P inp) n)).clusters
    (pass inp (passes inp (init P inp) n)).labels inp.rows).1 hl'))

/-- Witness of C9 (amended) on the scenario, for cluster 1 and its point 2. -/
theorem C9_radius_is_floored_maximum_witness :
    cluster 3 platform0 scenario
        = some (finish platform0 scenario (passes scenario (init platform0 scenario) 3)) ∧
      2 < scenario.rows ∧
      (finish platform0 scenario (passes scenario (init platform0 scenario) 3)).labels 2 = 1 ∧
      numeric_limits_min
        ≤ (finish platform0 scenario (passes scenario (init platform0 scenario) 3)).radii 1 ∧
      pointRadius platform0 scenario
          (finish platform0 scenario (passes scenario (init platform0 scenario) 3)) 2
        ≤ (finish platform0 scenario (passes scenario (init platform0 scenario) 3)).radii 1 ∧
      ((finish platform0 scenario (passes scenario (init platform0 scenario) 3)).radii 1
          = numeric_limits_min ∨
        ∃ i, i < scenario.rows ∧
          (finish platform0 scenario (passes scenario (init platform0 scenario) 3)).labels i = 1 ∧
          (finish platform0 scenario (passes scenario (init platform0 scenario) 3)).radii 1
            = pointRadius platform0 scenario
                (finish platform0 scenario (passes scenario (init platform0 scenario) 3)) i) :=
  ⟨scenario_returns, by decide, by decide!,
    (C9_radius_is_floored_maximum 3 platform0 scenario _ scenario_returns 1).1,
    (C9_radius_is_floored_maximum 3 platform0 scenario _ scenario_returns 1).2.1 2 (by decide)
      (by decide!),
    (C9_radius_is_floored_maximum 3 platform0 scenario _ scenario_returns 1).2.2⟩

/-- C10: when every point starts with a centroid at a squared distance below
the sentinel, every `labels[i]` lies in `[0, nclusters)` after every pass and
in the returned result, so the accesses indexed by `labels[i]` are in
bounds. -/
theorem C10_labels_in_range (P : Platform) (inp : Input) (h : startsBelowMax inp) :
    (∀ n i, i < inp.rows → (passes inp (init P inp) (n + 1)).labels i < inp.nclusters) ∧
    (∀ fuel r, cluster fuel P inp = some r → ∀ i, i < inp.rows → r.labels i < inp.nclusters) := by
  refine ⟨fun n => passes_labels_lt P inp h n, ?_⟩
  intro fuel r hr i hi
  obtain ⟨n, _, hfin, _, _⟩ := cluster_some fuel P inp r hr
  rw [hfin]
  exact passes_labels_lt P inp h n i hi

/-- Witness of C10 on the scenario: point 2 after the first pass, point 3 in
the result. -/
theorem C10_labels_in_range_witness :
    startsBelowMax scenario ∧
      (passes scenario (init platform0 scenario) (0 + 1)).labels 2 < scenario.nclusters ∧
      cluster 3 platform0 scenario
        = some (finish platform0 scenario (passes scenario (init platform0 scenario) 3)) ∧
      (finish platform0 scenario (passes scenario (init platform0 scenario) 3)).labels 3
        < scenario.nclusters :=
  ⟨scenario_startsBelowMax,
    (C10_labels_in_range platform0 scenario scenario_startsBelowMax).1 0 2 (by decide),
    scenario_returns,
    (C10_labels_in_range platform0 scenario scenario_startsBelowMax).2 3 _ scenario_returns 3
      (by decide)⟩

/-! ## Errors and the exit test -/

/-- The exit test after pass `n + 1` compares `E_(n+1)` with `E_n`. -/
theorem continues_iff (P : Platform) (inp : Input) (n : Nat) :
    continues inp (passes inp (init P inp) (n + 1))
      ↔ |errorAt P inp (n + 1) - errorAt P inp n| > inp.epsilon := Iff.rfl

/-- While the exit test holds after each of the first `fuel` passes, the loop
has not returned. -/
theorem loop_none_of_continues (inp : Input) (fuel : Nat) (s : State)
    (h : ∀ m, m < fuel → continues inp (passes inp s (m + 1))) : loop inp fuel s = none := by
  rcases hl : loop inp fuel s with _ | s'
  · rfl
  · obtain ⟨n, hn, hs, hstop, _⟩ := loop_some inp fuel s s' hl
    rw [hs] at hstop
    exact absurd (h n hn) hstop

/-- C11: when `cluster` returns, the returned count of every cluster is the
number of points whose returned label is that cluster. -/
theorem C11_counts_are_label_counts (fuel : Nat) (P : Platform) (inp : Input) (r : Clustering)
    (h : cluster fuel P inp = some r) (j : Nat) (hj : j < inp.nclusters) :
    r.counts j = ((Finset.range inp.rows).filter (fun i => r.labels i = j)).card := by
  obtain ⟨n, _, hfin, _, _⟩ := cluster_some fuel P inp r h
  rw [hfin]
  exact pass_counts inp _ j hj

/-- Witness of C11 on the scenario, for cluster 0. -/
theorem C11_counts_are_label_counts_witness :
    cluster 3 platform0 scenario
        = some (finish platform0 scenario (passes scenario (init platform0 scenario) 3)) ∧
      0 < scenario.nclusters ∧
      (finish platform0 scenario (passes scenario (init platform0 scenario) 3)).counts 0
        = ((Finset.range scenario.rows).filter (fun i =>
            (finish platform0 scenario
              (passes scenario (init platform0 scenario) 3)).labels i = 0)).card :=
  ⟨scenario_returns, by decide,
    C11_counts_are_label_counts 3 platform0 scenario _ scenario_returns 0 (by decide)⟩

/-- C13 (as stated, refuted): on `farPoint` (K = 1) the first pass does not set
`labels[0]`, which keeps the uninitialised content 7, not a cluster index, and
the amount added to the error is the sentinel `numeric_limits<double>::max()`,
not the squared distance 2^1200 to the only centroid.  On `drift` (K = 2),
where the first pass sets every label, the second pass adds the sentinel for
point 0, not its least squared distance 81 * 2^1018. -/
theorem C13_counterexample :
    1 ≤ farPoint.nclusters ∧
      (pass farPoint (init platform0 farPoint)).labels 0 = 7 ∧
      ¬ IsNearest farPoint (init platform0 farPoint).clusters 0
          ((pass farPoint (init platform0 farPoint)).labels 0) ∧
      (pass farPoint (init platform0 farPoint)).error = numeric_limits_max ∧
      squaredDistance farPoint.cols farPoint.points (init platform0 farPoint).clusters 0 0
        = 2 ^ 1200 ∧
      (pass farPoint (init platform0 farPoint)).error
        ≠ squaredDistance farPoint.cols farPoint.points (init platform0 farPoint).clusters 0 0 ∧
      1 ≤ drift.nclusters ∧
      IsNearest drift (passes drift (init platform0 drift) 1).clusters 0 0 ∧
      squaredDistance drift.cols drift.points (passes drift (init platform0 drift) 1).clusters 0 0
        = 81 * 2 ^ 1018 ∧
      minDistance drift (passes drift (init platform0 drift) 1).clusters
        (passes drift (init platform0 drift) 1).labels 0 = numeric_limits_max ∧
      minDistance drift (passes drift (init platform0 drift) 1).clusters
          (passes drift (init platform0 drift) 1).labels 0
        ≠ squaredDistance drift.cols drift.points
            (passes drift (init platform0 drift) 1).clusters 0 0 := by
  refine ⟨by decide, by decide!, ?_, by decide!, by decide!, by decide!, by decide,
    ⟨by decide, ?_, ?_⟩, by decide!, by decide!, by decide!⟩
  · intro h
    exact absurd h.1 (by decide!)
  · intro j hj
    have hK : drift.nclusters = 2 := rfl
    rw [hK] at hj
    interval_cases j <;> decide!
  · intro j hj
    exact absurd hj (Nat.not_lt_zero j)

/-- C13 (amended): in one pass, for every point that has a centroid at a squared
distance below the sentinel, `labels[i]` is set to the lowest index of a
centroid at least squared distance, the centroids being those at the start of
the pass, and the amount added to the error for the point is that least
squared distance; the error of the pass is the sum of the amounts. -/
theorem C13_assignment_pass (inp : Input) (s : State) (i : Nat) (hi : i < inp.rows)
    (h : ∃ j, j < inp.nclusters ∧
      squaredDistance inp.cols inp.points s.clusters i j < numeric_limits_max) :
    IsNearest inp s.clusters i ((pass inp s).labels i) ∧
      minDistance inp s.clusters s.labels i
        = squaredDistance inp.cols inp.points s.clusters i ((pass inp s).labels i) ∧
      (∀ a : Accum, a.labels i = s.labels i →
        (assignPoint inp s.clusters a i).error
          = a.error + minDistance inp s.clusters s.labels i) ∧
      (pass inp s).error
        = ∑ x in Finset.range inp.rows, minDistance inp s.clusters s.labels x := by
  refine ⟨pass_labels_nearest inp s i hi h, ?_, ?_, pass_error inp s⟩
  · rw [pass_labels, if_pos hi]
    exact (nearest_found inp s.clusters i (s.labels i) h).2.1
  · intro a ha
    simp only [assignPoint, minDistance, ha]

/-- Witness of C13 (amended) on the scenario: point 2 in the first pass. -/
theorem C13_assignment_pass_witness :
    2 < scenario.rows ∧
      (∃ j, j < scenario.nclusters ∧
        squaredDistance scenario.cols scenario.points (init platform0 scenario).clusters 2 j
          < numeric_limits_max) ∧
      IsNearest scenario (init platform0 scenario).clusters 2
        ((pass scenario (init platform0 scenario)).labels 2) ∧
      minDistance scenario (init platform0 scenario).clusters (init platform0 scenario).labels 2
        = squaredDistance scenario.cols scenario.points (init platform0 scenario).clusters 2
            ((pass scenario (init platform0 scenario)).labels 2) :=
  ⟨by decide, ⟨1, by decide, by decide!⟩,
    (C13_assignment_pass scenario (init platform0 scenario) 2 (by decide)
      ⟨1, by decide, by decide!⟩).1,
    (C13_assignment_pass scenario (init platform0 scenario) 2 (by decide)
      ⟨1, by decide, by decide!⟩).2.1⟩

/-- C15: when `cluster` returns, the returned radius of every cluster whose
returned count is 0 is the value it was initialised with,
`numeric_limits<double>::min()`. -/
theorem C15_empty_cluster_radius (fuel : Nat) (P : Platform) (inp : Input) (r : Clustering)
    (h : cluster fuel P inp = some r) (j : Nat) (hj : j < inp.nclusters)
    (hc : r.counts j = 0) : r.radii j = numeric_limits_min := by
  obtain ⟨n, _, hfin, _, _⟩ := cluster_some fuel P inp r h
  rw [hfin] at hc ⊢
  have hc' : (pass inp (passes inp (init P inp) n)).counts j = 0 := hc
  rw [pass_counts inp _ j hj, Finset.card_eq_zero] at hc'
  rcases (radiusPass_attained P inp (pass inp (passes inp (init P inp) n)).clusters
    (pass inp (passes inp (init P inp) n)).labels inp.rows).1 j with e | ⟨i, hi, hl, _⟩
  · exact e
  · exfalso
    have hmem : i ∈ (Finset.range inp.rows).filter
        (fun i => (pass inp (passes inp (init P inp) n)).labels i = j) :=
      Finset.mem_filter.mpr ⟨Finset.mem_range.mpr hi, hl⟩
    rw [hc'] at hmem
    exact absurd hmem (Finset.not_mem_empty i)

/-- Witness of C15 on `vacated`, whose cluster 1 gets no point. -/
theorem C15_empty_cluster_radius_witness :
    cluster 1 platform0 vacated
        = some (finish platform0 vacated (pass vacated (init platform0 vacated))) ∧
      1 < vacated.nclusters ∧
      (finish platform0 vacated (pass vacated (init platform0 vacated))).counts 1 = 0 ∧
      (finish platform0 vacated (pass vacated (init platform0 vacated))).radii 1
        = numeric_limits_min :=
  ⟨vacated_returns, by decide, by decide!,
    C15_empty_cluster_radius 1 platform0 vacated _ vacated_returns 1 (by decide) (by decide!)⟩

theorem countIn_append (inp : Input) (clusters : Nat → Nat → ℚ) (labels : Nat → Nat)
    (l₁ l₂ : List Nat) (j : Nat) :
    countIn inp clusters labels (l₁ ++ l₂) j
      = countIn inp clusters labels l₁ j + countIn inp clusters labels l₂ j := by
  simp [countIn, List.countP_append]

theorem sumIn_append (inp : Input) (clusters : Nat → Nat → ℚ) (labels : Nat → Nat)
    (l₁ l₂ : List Nat) (j k : Nat) :
    sumIn inp clusters labels (l₁ ++ l₂) j k
      = sumIn inp clusters labels l₁ j k + sumIn inp clusters labels l₂ j k := by
  simp [sumIn, List.filter_append, List.map_append, List.sum_append]

theorem errorIn_append (inp : Input) (clusters : Nat → Nat → ℚ) (labels : Nat → Nat)
    (l₁ l₂ : List Nat) :
    errorIn inp clusters labels (l₁ ++ l₂)
      = errorIn inp clusters labels l₁ + errorIn inp clusters labels l₂ := by
  simp [errorIn, List.map_append, List.sum_append]

theorem countIn_perm (inp : Input) (clusters : Nat → Nat → ℚ) (labels : Nat → Nat)
    {l₁ l₂ : List Nat} (h : l₁.Perm l₂) (j : Nat) :
    countIn inp clusters labels l₁ j = countIn inp clusters labels l₂ j :=
  h.countP_eq _

theorem sumIn_perm (inp : Input) (clusters : Nat → Nat → ℚ) (labels : Nat → Nat)
    {l₁ l₂ : List Nat} (h : l₁.Perm l₂) (j k : Nat) :
    sumIn inp clusters labels l₁ j k = sumIn inp clusters labels l₂ j k :=
  ((h.filter _).map _).sum_eq

theorem errorIn_perm (inp : Input) (clusters : Nat → Nat → ℚ) (labels : Nat → Nat)
    {l₁ l₂ : List Nat} (h : l₁.Perm l₂) :
    errorIn inp clusters labels l₁ = errorIn inp clusters labels l₂ :=
  (h.map _).sum_eq

/-- The loop over the points in closed form, for indices without repetition. -/
theorem assign_nodup (inp : Input) (clusters : Nat → Nat → ℚ) (a : Accum) (idx : List Nat)
    (h : idx.Nodup) :
    assign inp clusters idx a =
      { local_clusters := fun j k => a.local_clusters j k +
          (if k < inp.cols then sumIn inp clusters a.labels idx j k else 0)
        local_counts := fun j => a.local_counts j + countIn inp clusters a.labels idx j
        labels := fun x => if x ∈ idx then newLabel inp clusters a.labels x else a.labels x
        error := a.error + errorIn inp clusters a.labels idx } := by
  induction idx using List.reverseRecOn with
  | nil => simp [assign, sumIn, countIn, errorIn]
  | append_singleton l i ih =>
    have hn := List.nodup_append.mp h
    have hil : i ∉ l := fun hmem => hn.2.2 hmem (List.mem_singleton_self i)
    unfold assign at ih ⊢
    rw [List.foldl_append, ih hn.1]
    simp only [List.foldl_cons, List.foldl_nil, assignPoint, hil, if_false]
    have hlab : setVec (fun x => if x ∈ l then newLabel inp clusters a.labels x else a.labels x) i
        (nearest inp clusters i (a.labels i)).1 i = newLabel inp clusters a.labels i := by
      simp [setVec, newLabel]
    rw [hlab]
    refine congr (congr (congr (congrArg Accum.mk ?_) ?_) ?_) ?_
    · funext j k
      rw [addPoint_apply, sumIn_append]
      by_cases hj : j = newLabel inp clusters a.labels i
      · by_cases hk : k < inp.cols
        · simp [hj, hk, sumIn]; ring
        · simp [hk]
      · have hj2 : ¬ newLabel inp clusters a.labels i = j := fun e => hj e.symm
        simp [hj, hj2, sumIn]
    · funext j
      rw [countIn_append]
      simp only [setVec]
      by_cases hj : j = newLabel inp clusters a.labels i
      · simp [hj, countIn]; ring
      · have hj2 : ¬ newLabel inp clusters a.labels i = j := fun e => hj e.symm
        simp [hj, hj2, countIn]
    · funext x
      simp only [setVec, newLabel]
      by_cases hx : x = i
      · simp [hx]
      · simp [hx]
    · rw [errorIn_append]
      simp [errorIn, minDistance]; ring

theorem newLabel_congr (inp : Input) (clusters : Nat → Nat → ℚ) (l₁ l₂ : Nat → Nat) (x : Nat)
    (h : l₁ x = l₂ x) : newLabel inp clusters l₁ x = newLabel inp clusters l₂ x := by
  unfold newLabel; rw [h]

theorem minDistance_congr (inp : Input) (clusters : Nat → Nat → ℚ) (l₁ l₂ : Nat → Nat) (x : Nat)
    (h : l₁ x = l₂ x) : minDistance inp clusters l₁ x = minDistance inp clusters l₂ x := by
  unfold minDistance; rw [h]

theorem countIn_congr (inp : Input) (clusters : Nat → Nat → ℚ) (l₁ l₂ : Nat → Nat)
    (idx : List Nat) (h : ∀ x, x ∈ idx → l₁ x = l₂ x) (j : Nat) :
    countIn inp clusters l₁ idx j = countIn inp clusters l₂ idx j := by
  unfold countIn
  apply List.countP_congr
  intro x hx
  rw [newLabel_congr inp clusters l₁ l₂ x (h x hx)]

theorem sumIn_congr (inp : Input) (clusters : Nat → Nat → ℚ) (l₁ l₂ : Nat → Nat)
    (idx : List Nat) (h : ∀ x, x ∈ idx → l₁ x = l₂ x) (j k : Nat) :
    sumIn inp clusters l₁ idx j k = sumIn inp clusters l₂ idx j k := by
  unfold sumIn
  congr 2
  apply List.filter_congr
  intro x hx
  rw [newLabel_congr inp clusters l₁ l₂ x (h x hx)]

theorem errorIn_congr (inp : Input) (clusters : Nat → Nat → ℚ) (l₁ l₂ : Nat → Nat)
    (idx : List Nat) (h : ∀ x, x ∈ idx → l₁ x = l₂ x) :
    errorIn inp clusters l₁ idx = errorIn inp clusters l₂ idx := by
  unfold errorIn
  congr 1
  apply List.map_congr_left
  intro x hx
  exact minDistance_congr inp clusters l₁ l₂ x (h x hx)

/-- The workers' loops in closed form, for index lists without a common or a
repeated index. -/
theorem assignTeam_eq (inp : Input) (clusters : Nat → Nat → ℚ) (ws : List Worker)
    (st : (Nat → Nat) × ℚ) (h : (ws.map Worker.range).flatten.Nodup) :
    assignTeam inp clusters ws st =
      ((fun x => if x ∈ (ws.map Worker.range).flatten then newLabel inp clusters st.1 x
          else st.1 x,
        st.2 + errorIn inp clusters st.1 (ws.map Worker.range).flatten),
       ws.map (fun w =>
        { local_clusters := fun j k => w.local_clusters j k +
            (if k < inp.cols then sumIn inp clusters st.1 w.range j k else 0)
          local_counts := fun j => w.local_counts j + countIn inp clusters st.1 w.range j
          range := w.range })) := by
  induction ws generalizing st with
  | nil => simp [assignTeam, errorIn]
  | cons w ws ih =>
    rw [List.map_cons, List.flatten_cons] at h
    have hn := List.nodup_append.mp h
    have hdis : ∀ x, x ∈ (ws.map Worker.range).flatten → x ∉ w.range :=
      fun x hx hw => hn.2.2 hw hx
    simp only [assignTeam]
    rw [assign_nodup inp clusters _ w.range hn.1, ih _ hn.2.1]
    simp only [List.map_cons, List.flatten_cons]
    have hrest : ∀ x, x ∈ (ws.map Worker.range).flatten →
        (fun x => if x ∈ w.range then newLabel inp clusters st.1 x else st.1 x) x = st.1 x := by
      intro x hx
      simp [hdis x hx]
    refine Prod.ext (Prod.ext ?_ ?_) ?_
    · funext x
      simp only [List.mem_append]
      by_cases hx : x ∈ (ws.map Worker.range).flatten
      · simp only [hx, or_true, if_true]
        exact newLabel_congr inp clusters _ _ x (hrest x hx)
      · simp [hx]
    · simp only
      rw [errorIn_congr inp clusters _ st.1 _ hrest, errorIn_append]
      ring
    · simp only [List.cons.injEq, true_and]
      apply List.map_congr_left
      intro w' hw'
      have hsub : ∀ x, x ∈ w'.range →
          (fun x => if x ∈ w.range then newLabel inp clusters st.1 x else st.1 x) x = st.1 x :=
        fun x hx => hrest x (List.mem_flatten.mpr ⟨w'.range, List.mem_map.mpr ⟨w', hw', rfl⟩, hx⟩)
      congr 1
      · funext j k
        rw [sumIn_congr inp clusters _ st.1 _ hsub]
      · funext j
        rw [countIn_congr inp clusters _ st.1 _ hsub]

/-- The workers' merges in closed form. -/
theorem mergeTeam_eq (inp : Input) (ws : List Worker) (c : Nat → Nat) (t : Nat → Nat → ℚ) :
    mergeTeam inp ws (c, t) =
      (fun a => if a < inp.nclusters then c a + (ws.map (fun w => w.local_counts a)).sum
          else c a,
       fun a b => if a < inp.nclusters ∧ b < inp.cols
          then t a b + (ws.map (fun w => w.local_clusters a b)).sum else t a b) := by
  unfold mergeTeam
  induction ws generalizing c t with
  | nil => simp
  | cons w ws ih =>
    rw [List.foldl_cons, merge_eq, ih]
    refine Prod.ext ?_ ?_
    · funext a
      by_cases ha : a < inp.nclusters
      · simp [ha]; ring
      · simp [ha]
    · funext a b
      by_cases hab : a < inp.nclusters ∧ b < inp.cols
      · simp [hab]; ring
      · simp [hab]

theorem resetWorker_range (inp : Input) (ws : List Worker) :
    (ws.map (resetWorker inp)).map Worker.range = ws.map Worker.range := by
  rw [List.map_map]
  rfl

/-- After the reset, the workers' loops and the merges, the global count of a
cluster is the number of points of all the ranges that the scan labels with
it. -/
theorem team_counts_sum (inp : Input) (clusters : Nat → Nat → ℚ) (labels : Nat → Nat)
    (ws : List Worker) (j : Nat) (hj : j < inp.nclusters) :
    (((ws.map (resetWorker inp)).map (fun w =>
        ({ local_clusters := fun j k => w.local_clusters j k +
              (if k < inp.cols then sumIn inp clusters labels w.range j k else 0)
           local_counts := fun j => w.local_counts j + countIn inp clusters labels w.range j
           range := w.range } : Worker))).map (fun w => w.local_counts j)).sum
      = countIn inp clusters labels (ws.map Worker.range).flatten j := by
  induction ws with
  | nil => simp [countIn]
  | cons w ws ih =>
    simp only [List.map_cons, List.sum_cons, List.flatten_cons, countIn_append, ih]
    simp [resetWorker, resetAccumulators_eq, hj]

theorem team_sums_sum (inp : Input) (clusters : Nat → Nat → ℚ) (labels : Nat → Nat)
    (ws : List Worker) (j k : Nat) (hj : j < inp.nclusters) (hk : k < inp.cols) :
    (((ws.map (resetWorker inp)).map (fun w =>
        ({ local_clusters := fun j k => w.local_clusters j k +
              (if k < inp.cols then sumIn inp clusters labels w.range j k else 0)
           local_counts := fun j => w.local_counts j + countIn inp clusters labels w.range j
           range := w.range } : Worker))).map (fun w => w.local_clusters j k)).sum
      = sumIn inp clusters labels (ws.map Worker.range).flatten j k := by
  induction ws with
  | nil => simp [sumIn]
  | cons w ws ih =>
    simp only [List.map_cons, List.sum_cons, List.flatten_cons, sumIn_append, ih]
    simp [resetWorker, resetAccumulators_eq, hj, hk]

/-- One pass of a team whose ranges split `[0, rows)` leaves in the shared
variables what the single-worker pass leaves. -/
theorem passTeam_sameShared (inp : Input) (t : Team) (s : State)
    (hsplit : IsSplit inp (t.workers.map Worker.range)) (hsame : SameShared t s) :
    SameShared (passTeam inp t) (pass inp s) := by
  obtain ⟨hcl, htmp, hcnt, hlab, herr, _⟩ := hsame
  have hperm : List.Perm (t.workers.map Worker.range).flatten (List.range inp.rows) := hsplit
  have hnd : (t.workers.map Worker.range).flatten.Nodup :=
    hperm.nodup_iff.mpr (List.nodup_range inp.rows)
  have hnd' : ((t.workers.map (resetWorker inp)).map Worker.range).flatten.Nodup := by
    rw [resetWorker_range]; exact hnd
  have hcounts : (passTeam inp t).counts = (pass inp s).counts := by
    funext j
    simp only [passTeam, pass, assignTeam_eq inp t.clusters _ _ hnd', mergeTeam_eq, merge_eq,
      assign_nodup inp s.clusters _ _ (List.nodup_range inp.rows), resetAccumulators_eq]
    by_cases hj : j < inp.nclusters
    · simp only [hj, if_true]
      rw [team_counts_sum inp t.clusters t.labels t.workers j hj,
        countIn_perm inp t.clusters t.labels hperm, hcl, hlab]
      simp
    · simp only [hj, if_false]
      rw [hcnt]
  have htemp : (passTeam inp t).temp_clusters = (pass inp s).temp_clusters := by
    funext j k
    simp only [passTeam, pass, assignTeam_eq inp t.clusters _ _ hnd', mergeTeam_eq, merge_eq,
      assign_nodup inp s.clusters _ _ (List.nodup_range inp.rows), resetAccumulators_eq]
    by_cases hjk : j < inp.nclusters ∧ k < inp.cols
    · simp only [hjk, and_self, if_true]
      rw [team_sums_sum inp t.clusters t.labels t.workers j k hjk.1 hjk.2,
        sumIn_perm inp t.clusters t.labels hperm, hcl, hlab]
      simp [hjk.2]
    · simp only [hjk, if_false]
      rw [htmp]
  refine ⟨?_, htemp, hcounts, ?_, ?_, ?_⟩
  · show update _ _ (passTeam inp t).counts (passTeam inp t).temp_clusters t.clusters
      = update _ _ (pass inp s).counts (pass inp s).temp_clusters s.clusters
    rw [hcounts, htemp, hcl]
  · funext x
    simp only [passTeam, pass, assignTeam_eq inp t.clusters _ _ hnd',
      assign_nodup inp s.clusters _ _ (List.nodup_range inp.rows), resetWorker_range]
    rw [hcl, hlab]
    by_cases hx : x ∈ List.range inp.rows
    · rw [if_pos hx, if_pos (hperm.mem_iff.mpr hx)]
    · rw [if_neg hx, if_neg (fun h => hx (hperm.mem_iff.mp h))]
  · simp only [passTeam, pass, assignTeam_eq inp t.clusters _ _ hnd',
      assign_nodup inp s.clusters _ _ (List.nodup_range inp.rows), resetWorker_range]
    rw [errorIn_perm inp t.clusters t.labels hperm, hcl, hlab]
    ring
  · show t.error = s.error
    exact herr

theorem passTeam_ranges (inp : Input) (t : Team) :
    (passTeam inp t).workers.map Worker.range = t.workers.map Worker.range := by
  have key : ∀ (ws : List Worker) (st : (Nat → Nat) × ℚ),
      (assignTeam inp t.clusters ws st).2.map Worker.range = ws.map Worker.range := by
    intro ws
    induction ws with
    | nil => intro st; rfl
    | cons w ws ih => intro st; simp only [assignTeam, List.map_cons, ih]
  show (assignTeam inp t.clusters _ _).2.map Worker.range = _
  rw [key, resetWorker_range]

theorem initTeam_sameShared (P : Platform) (inp : Input) (ranges : List (List Nat)) :
    SameShared (initTeam P inp ranges) (init P inp) :=
  ⟨rfl, rfl, rfl, rfl, rfl, rfl⟩

theorem initTeam_ranges (P : Platform) (inp : Input) (ranges : List (List Nat)) :
    (initTeam P inp ranges).workers.map Worker.range = ranges := by
  simp [initTeam, List.map_map, Function.comp_def]

/-- One pass of the team leaves in the shared variables what the single-worker
pass leaves, and the exit test says the same on both. -/
theorem continuesTeam_iff (inp : Input) (t : Team) (s : State) (h : SameShared t s) :
    continuesTeam inp t ↔ continues inp s := by
  unfold continuesTeam continues
  rw [h.2.2.2.2.1, h.2.2.2.2.2]

/-- C12 (the pass, and the defect of the run): for every split of `[0, rows)`
into worker ranges, one pass in which each worker accumulates into its private
buffers and then merges them leaves the same labels, global counts, global
coordinate sums, centroids and error as the single-worker pass, and the exit
test on the shared variables it leaves says what the single-worker test says.
When that test says continue and the tolerance is not negative, a worker that
evaluates line 96 after another worker has run line 49 of the next pass finds
the test false: the workers disagree on leaving the loop, which the single
worker never does. -/
theorem C12_pass_agrees_exit_test_races (inp : Input) (t : Team) (s : State)
    (hsplit : IsSplit inp (t.workers.map Worker.range)) (hsame : SameShared t s)
    (heps : 0 ≤ inp.epsilon) (hgo : continues inp (pass inp s)) :
    SameShared (passTeam inp t) (pass inp s) ∧
      (passTeam inp t).workers.map Worker.range = t.workers.map Worker.range ∧
      continuesTeam inp (passTeam inp t) ∧
      ¬ continuesTeam inp (saveError (passTeam inp t)) ∧
      (continuesTeam inp (clearError (saveError (passTeam inp t)))
        ↔ (pass inp s).error > inp.epsilon) := by
  have hp := passTeam_sameShared inp t s hsplit hsame
  refine ⟨hp, passTeam_ranges inp t, (continuesTeam_iff inp _ _ hp).mpr hgo, ?_, ?_⟩
  · unfold continuesTeam saveError
    simp only [sub_self, abs_zero]
    exact not_lt.mpr heps
  · unfold continuesTeam clearError saveError
    simp only [zero_sub, abs_neg]
    rw [hp.2.2.2.2.1, abs_of_nonneg (pass_error_nonneg inp s)]

/-- Witness of C12 on the scenario, split among three workers: after the first
pass, whose error is 2, the test says continue to the worker that reads the
shared variables as the pass left them and stop to a worker that reads them
after line 49. -/
theorem C12_pass_agrees_exit_test_races_witness :
    IsSplit scenario ((initTeam platform0 scenario scenarioSplit).workers.map Worker.range) ∧
      SameShared (initTeam platform0 scenario scenarioSplit) (init platform0 scenario) ∧
      0 ≤ scenario.epsilon ∧ continues scenario (pass scenario (init platform0 scenario)) ∧
      (passTeam scenario (initTeam platform0 scenario scenarioSplit)).error = 2 ∧
      SameShared (passTeam scenario (initTeam platform0 scenario scenarioSplit))
        (pass scenario (init platform0 scenario)) ∧
      continuesTeam scenario (passTeam scenario (initTeam platform0 scenario scenarioSplit)) ∧
      ¬ continuesTeam scenario
          (saveError (passTeam scenario (initTeam platform0 scenario scenarioSplit))) :=
  have hsplit : IsSplit scenario
      ((initTeam platform0 scenario scenarioSplit).workers.map Worker.range) := by
    rw [initTeam_ranges]; unfold IsSplit; decide
  have h := C12_pass_agrees_exit_test_races scenario (initTeam platform0 scenario scenarioSplit)
    (init platform0 scenario) hsplit (initTeam_sameShared platform0 scenario scenarioSplit)
    (by decide!) (by decide!)
  ⟨hsplit, initTeam_sameShared platform0 scenario scenarioSplit, by decide!, by decide!,
    by decide!, h.1, h.2.2.1, h.2.2.2.1⟩

/-! ## The cost of an assignment -/

theorem squaredDistance_congr (cols : Nat) (points C C' : Nat → Nat → ℚ) (i j j' : Nat)
    (h : ∀ k, k < cols → C j k = C' j' k) :
    squaredDistance cols points C i j = squaredDistance cols points C' i j' := by
  rw [squaredDistance_eq_sum, squaredDistance_eq_sum]
  apply Finset.sum_congr rfl
  intro k hk
  rw [h k (Finset.mem_range.mp hk)]

theorem pass_clusters_outside (inp : Input) (s : State) (j k : Nat)
    (h : ¬ (j < inp.nclusters ∧ k < inp.cols)) :
    (pass inp s).clusters j k = s.clusters j k := by
  show update _ _ _ _ _ j k = _
  rw [update_apply, if_neg h]

/-- The mean of a family minimises the sum of the squared differences. -/
theorem sum_sq_mean_le (t : Finset Nat) (p : Nat → ℚ) (c : ℚ) (ht : t.card ≠ 0) :
    ∑ i in t, (p i - (∑ x in t, p x) / (t.card : ℚ)) ^ 2 ≤ ∑ i in t, (p i - c) ^ 2 := by
  have hq : (t.card : ℚ) ≠ 0 := by exact_mod_cast ht
  set μ := (∑ x in t, p x) / (t.card : ℚ) with hμ
  have hsum : ∑ x in t, p x = (t.card : ℚ) * μ := by
    rw [hμ]; field_simp
  have key : ∑ i in t, (p i - c) ^ 2
      = ∑ i in t, (p i - μ) ^ 2 + (t.card : ℚ) * (μ - c) ^ 2 := by
    have h1 : ∀ i, (p i - c) ^ 2 = (p i - μ) ^ 2 + (2 * (μ - c) * p i + (c ^ 2 - μ ^ 2)) := by
      intro i; ring
    rw [Finset.sum_congr rfl (fun i _ => h1 i), Finset.sum_add_distrib, Finset.sum_add_distrib,
      ← Finset.mul_sum, hsum, Finset.sum_const, nsmul_eq_mul]
    ring
  rw [key]
  have hnn : 0 ≤ (t.card : ℚ) * (μ - c) ^ 2 :=
    mul_nonneg (Nat.cast_nonneg _) (sq_nonneg _)
  linarith

/-- In one coordinate, the centroids written by a pass cost no more than any
others, over the points whose label is a cluster index. -/
theorem pass_coordinate_cost_le (inp : Input) (s : State) (C : Nat → Nat → ℚ) (k : Nat)
    (hk : k < inp.cols) :
    ∑ i in (Finset.range inp.rows).filter (fun i => (pass inp s).labels i < inp.nclusters),
        (inp.points i k - (pass inp s).clusters ((pass inp s).labels i) k) ^ 2
      ≤ ∑ i in (Finset.range inp.rows).filter (fun i => (pass inp s).labels i < inp.nclusters),
        (inp.points i k - C ((pass inp s).labels i) k) ^ 2 := by
  have hmaps : ∀ i ∈ (Finset.range inp.rows).filter
      (fun i => (pass inp s).labels i < inp.nclusters),
      (pass inp s).labels i ∈ Finset.range inp.nclusters := by
    intro i hi
    exact Finset.mem_range.mpr (Finset.mem_filter.mp hi).2
  rw [← Finset.sum_fiberwise_of_maps_to hmaps, ← Finset.sum_fiberwise_of_maps_to hmaps]
  apply Finset.sum_le_sum
  intro j hj
  have hjK : j < inp.nclusters := Finset.mem_range.mp hj
  have hfib : ((Finset.range inp.rows).filter
      (fun i => (pass inp s).labels i < inp.nclusters)).filter
        (fun i => (pass inp s).labels i = j)
      = (Finset.range inp.rows).filter (fun i => (pass inp s).labels i = j) := by
    ext i
    simp only [Finset.mem_filter, Finset.mem_range]
    constructor
    · intro h; exact ⟨h.1.1, h.2⟩
    · intro h; exact ⟨⟨h.1, h.2 ▸ hjK⟩, h.2⟩
  rw [hfib]
  have hl : ∀ i ∈ (Finset.range inp.rows).filter (fun i => (pass inp s).labels i = j),
      (pass inp s).labels i = j := fun i hi => (Finset.mem_filter.mp hi).2
  rw [Finset.sum_congr rfl (fun i hi => by rw [hl i hi]),
    Finset.sum_congr rfl (fun i hi => by rw [hl i hi] :
      ∀ i ∈ (Finset.range inp.rows).filter (fun i => (pass inp s).labels i = j),
        (inp.points i k - C ((pass inp s).labels i) k) ^ 2 = (inp.points i k - C j k) ^ 2)]
  by_cases hc : ((Finset.range inp.rows).filter (fun i => (pass inp s).labels i = j)).card = 0
  · rw [Finset.card_eq_zero.mp hc]; simp
  · have hcount : (pass inp s).counts j ≠ 0 := by rw [pass_counts inp s j hjK]; exact hc
    rw [pass_clusters inp s j k hjK hk, if_pos hcount, pass_temp_clusters inp s j k hjK hk,
      pass_counts inp s j hjK]
    exact sum_sq_mean_le _ (fun i => inp.points i k) (C j k) hc

/-- The centroids written by a pass cost no more, for the labels of the pass,
than any centroids that agree with them outside the cluster rows. -/
theorem pass_cost_le (inp : Input) (s : State) (C : Nat → Nat → ℚ)
    (hC : ∀ j, inp.nclusters ≤ j → ∀ k, k < inp.cols → (pass inp s).clusters j k = C j k) :
    ∑ i in Finset.range inp.rows,
        squaredDistance inp.cols inp.points (pass inp s).clusters i ((pass inp s).labels i)
      ≤ ∑ i in Finset.range inp.rows,
        squaredDistance inp.cols inp.points C i ((pass inp s).labels i) := by
  rw [← Finset.sum_filter_add_sum_filter_not (Finset.range inp.rows)
      (fun i => (pass inp s).labels i < inp.nclusters),
    ← Finset.sum_filter_add_sum_filter_not (Finset.range inp.rows)
      (fun i => (pass inp s).labels i < inp.nclusters)
      (fun i => squaredDistance inp.cols inp.points C i ((pass inp s).labels i))]
  apply add_le_add
  · simp only [squaredDistance_eq_sum]
    rw [Finset.sum_comm, Finset.sum_comm (s := (Finset.range inp.rows).filter _)]
    apply Finset.sum_le_sum
    intro k hk
    exact pass_coordinate_cost_le inp s C k (Finset.mem_range.mp hk)
  · apply le_of_eq
    apply Finset.sum_congr rfl
    intro i hi
    have hge : inp.nclusters ≤ (pass inp s).labels i := not_lt.mp (Finset.mem_filter.mp hi).2
    exact squaredDistance_congr _ _ _ _ _ _ _ (fun k hk => hC _ hge k hk)

/-- When a pass writes every label, the next pass computes an error that is
not larger. -/
theorem pass_error_le (inp : Input) (s : State)
    (hfresh : ∀ i, i < inp.rows → ∃ j, j < inp.nclusters ∧
      squaredDistance inp.cols inp.points s.clusters i j < numeric_limits_max) :
    (pass inp (pass inp s)).error ≤ (pass inp s).error := by
  have hlab : ∀ i, i < inp.rows → (pass inp s).labels i < inp.nclusters ∧
      minDistance inp s.clusters s.labels i
        = squaredDistance inp.cols inp.points s.clusters i ((pass inp s).labels i) := by
    intro i hi
    rw [pass_labels, if_pos hi]
    exact ⟨(nearest_found inp s.clusters i (s.labels i) (hfresh i hi)).1,
      (nearest_found inp s.clusters i (s.labels i) (hfresh i hi)).2.1⟩
  calc (pass inp (pass inp s)).error
      = ∑ i in Finset.range inp.rows,
          minDistance inp (pass inp s).clusters (pass inp s).labels i := pass_error inp _
    _ ≤ ∑ i in Finset.range inp.rows,
          squaredDistance inp.cols inp.points (pass inp s).clusters i
            ((pass inp s).labels i) := by
        apply Finset.sum_le_sum
        intro i hi
        exact nearest_le inp _ i _ _ (hlab i (Finset.mem_range.mp hi)).1
    _ ≤ ∑ i in Finset.range inp.rows,
          squaredDistance inp.cols inp.points s.clusters i ((pass inp s).labels i) := by
        apply pass_cost_le
        intro j hj k _
        exact pass_clusters_outside inp s j k (fun h => absurd h.1 (not_lt.mpr hj))
    _ = ∑ i in Finset.range inp.rows, minDistance inp s.clusters s.labels i := by
        apply Finset.sum_congr rfl
        intro i hi
        exact ((hlab i (Finset.mem_range.mp hi)).2).symm
    _ = (pass inp s).error := (pass_error inp s).symm

theorem drift_startsBelowMax : startsBelowMax drift := by
  intro i hi
  have hr : drift.rows = 5 := rfl
  rw [hr] at hi
  refine ⟨0, by decide, ?_⟩
  interval_cases i <;> decide!

theorem stray_startsBelowMax : startsBelowMax stray := by
  intro i hi
  have hr : stray.rows = 7 := rfl
  rw [hr] at hi
  refine ⟨0, by decide, ?_⟩
  interval_cases i <;> decide!

/-- C16 (as stated, refuted): on `stray` (K = 2) the first pass writes every
label.  In the second pass the point at 240 is below the sentinel of neither
centroid: its label is not written and it adds the sentinel to the error,
every other point adds 0, and the error is `numeric_limits<double>::max()`, a
finite double.  The exit test holds, on the exact errors and on the doubles,
so the third pass runs; the point at 240 adds the sentinel again, the points
at 60 add more, and the error is larger than the error of the second pass: in
exact arithmetic, and as doubles, where it is +inf. -/
theorem C16_counterexample :
    1 ≤ stray.nclusters ∧ startsBelowMax stray ∧
      (∀ i, i < stray.rows → (passes stray (init platform0 stray) 1).labels i = 0) ∧
      (¬ ∃ j, j < stray.nclusters ∧
        squaredDistance stray.cols stray.points (passes stray (init platform0 stray) 1).clusters
          3 j < numeric_limits_max) ∧
      errorAt platform0 stray 2 = numeric_limits_max ∧
      errorAt platform0 stray 3 = numeric_limits_max + 6075 * 2 ^ 1010 ∧
      continues stray (passes stray (init platform0 stray) 2) ∧
      errorAt platform0 stray 2 < errorAt platform0 stray 3 ∧
      errorSeq platform0 stray 1 = Dbl.posInf ∧
      errorSeq platform0 stray 2 = Dbl.fin numeric_limits_max ∧
      errorSeq platform0 stray 3 = Dbl.posInf ∧
      continuesD stray.epsilon (errorSeq platform0 stray 1) (errorSeq platform0 stray 0) ∧
      continuesD stray.epsilon (errorSeq platform0 stray 2) (errorSeq platform0 stray 1) ∧
      Dbl.le (errorSeq platform0 stray 3) (errorSeq platform0 stray 2) = false := by
  refine ⟨by decide, stray_startsBelowMax, ?_, ?_, by decide!, by decide!, by decide!,
    by decide!, by decide!, by decide!, by decide!, by decide!, by decide!, by decide!⟩
  · intro i hi
    have hr : stray.rows = 7 := rfl
    rw [hr] at hi
    interval_cases i <;> decide!
  · rintro ⟨j, hj, h⟩
    have hK : stray.nclusters = 2 := rfl
    rw [hK] at hj
    interval_cases j
    · exact absurd h (by decide!)
    · exact absurd h (by decide!)

/-- C16 (amended): for every `n ≥ 1` such that every point has, among the
centroids entering pass `n`, one at a squared distance below the sentinel (so
that pass `n` writes every label), `E_(n+1) ≤ E_n`; empty clusters, whose
centroid is reset to zero, are included. -/
theorem C16_error_nonincreasing (P : Platform) (inp : Input) (n : Nat) (hn : 1 ≤ n)
    (hfresh : ∀ i, i < inp.rows → ∃ j, j < inp.nclusters ∧
      squaredDistance inp.cols inp.points (passes inp (init P inp) (n - 1)).clusters i j
        < numeric_limits_max) :
    errorAt P inp (n + 1) ≤ errorAt P inp n := by
  obtain ⟨m, rfl⟩ : ∃ m, n = m + 1 := ⟨n - 1, by omega⟩
  exact pass_error_le inp (passes inp (init P inp) m) hfresh

/-- Witness of C16 (amended) on the scenario, for the first two passes. -/
theorem C16_error_nonincreasing_witness :
    1 ≤ 1 ∧
      (∀ i, i < scenario.rows → ∃ j, j < scenario.nclusters ∧
        squaredDistance scenario.cols scenario.points
          (passes scenario (init platform0 scenario) (1 - 1)).clusters i j
            < numeric_limits_max) ∧
      errorAt platform0 scenario (1 + 1) ≤ errorAt platform0 scenario 1 :=
  ⟨by decide, scenario_startsBelowMax,
    C16_error_nonincreasing platform0 scenario 1 (by decide) scenario_startsBelowMax⟩

/-! ## Termination of the loop -/

/-- What a pass does to the label of a point: it leaves it, every centroid
being at or beyond the sentinel, or it writes the lowest index of a nearest
centroid. -/
theorem pass_label_cases (inp : Input) (s : State) (i : Nat) (hi : i < inp.rows) :
    ((pass inp s).labels i = s.labels i) ∨
      ((pass inp s).labels i < inp.nclusters ∧
        (∀ j, j < inp.nclusters →
          squaredDistance inp.cols inp.points s.clusters i ((pass inp s).labels i)
            ≤ squaredDistance inp.cols inp.points s.clusters i j) ∧
        (∀ j, j < (pass inp s).labels i →
          squaredDistance inp.cols inp.points s.clusters i ((pass inp s).labels i)
            < squaredDistance inp.cols inp.points s.clusters i j)) := by
  rw [pass_labels, if_pos hi]
  unfold newLabel
  rcases nearest_cases inp s.clusters i (s.labels i) with h | h
  · left; rw [h]
  · right
    refine ⟨h.1, ?_, ?_⟩
    · intro j hj
      rw [← h.2.1]
      exact nearest_le inp s.clusters i (s.labels i) j hj
    · intro j hj
      rw [← h.2.1]
      exact h.2.2.2 j hj

theorem unwritten_subset (inp : Input) (s : State) :
    (Finset.range inp.rows).filter (fun i => inp.nclusters ≤ (pass inp s).labels i)
      ⊆ (Finset.range inp.rows).filter (fun i => inp.nclusters ≤ s.labels i) := by
  intro i hi
  obtain ⟨hr, hge⟩ := Finset.mem_filter.mp hi
  refine Finset.mem_filter.mpr ⟨hr, ?_⟩
  rcases pass_label_cases inp s i (Finset.mem_range.mp hr) with h | h
  · rw [← h]; exact hge
  · exact absurd h.1 (not_lt.mpr hge)

theorem unwrittenCount_pass_le (inp : Input) (s : State) :
    unwrittenCount inp (pass inp s) ≤ unwrittenCount inp s :=
  Finset.card_le_card (unwritten_subset inp s)

/-- When a pass leaves the number of labels that are no cluster index, it
writes no label that was none. -/
theorem unwritten_kept (inp : Input) (s : State)
    (h : unwrittenCount inp (pass inp s) = unwrittenCount inp s) (i : Nat) (hi : i < inp.rows)
    (hge : inp.nclusters ≤ s.labels i) : inp.nclusters ≤ (pass inp s).labels i := by
  have heq := Finset.eq_of_subset_of_card_le (unwritten_subset inp s) (le_of_eq h.symm)
  have hmem : i ∈ (Finset.range inp.rows).filter (fun i => inp.nclusters ≤ s.labels i) :=
    Finset.mem_filter.mpr ⟨Finset.mem_range.mpr hi, hge⟩
  rw [← heq] at hmem
  exact (Finset.mem_filter.mp hmem).2

/-- Against the centroids entering the pass, the new label of a point costs no
more than the old one; when it costs the same it is not a larger index. -/
theorem pass_label_cost_le (inp : Input) (s : State)
    (h : unwrittenCount inp (pass inp s) = unwrittenCount inp s) (i : Nat) (hi : i < inp.rows) :
    squaredDistance inp.cols inp.points s.clusters i ((pass inp s).labels i)
        ≤ squaredDistance inp.cols inp.points s.clusters i (s.labels i) ∧
      (squaredDistance inp.cols inp.points s.clusters i ((pass inp s).labels i)
          = squaredDistance inp.cols inp.points s.clusters i (s.labels i) →
        (pass inp s).labels i ≤ s.labels i) := by
  rcases pass_label_cases inp s i hi with hc | hc
  · rw [hc]; exact ⟨le_refl _, fun _ => le_refl _⟩
  · have hlt : s.labels i < inp.nclusters := by
      by_contra hge
      exact absurd hc.1 (not_lt.mpr (unwritten_kept inp s h i hi (not_lt.mp hge)))
    refine ⟨hc.2.1 _ hlt, ?_⟩
    intro heq
    by_contra hgt
    have := hc.2.2 (s.labels i) (not_le.mp hgt)
    rw [heq] at this
    exact lt_irrefl _ this

theorem assignedCost_pass_le (inp : Input) (s : State)
    (h : unwrittenCount inp (pass inp s) = unwrittenCount inp s) :
    assignedCost inp (pass inp s) ≤ assignedCost inp s := by
  unfold assignedCost
  calc ∑ i in Finset.range inp.rows,
        squaredDistance inp.cols inp.points (pass inp s).clusters i ((pass inp s).labels i)
      ≤ ∑ i in Finset.range inp.rows,
        squaredDistance inp.cols inp.points s.clusters i ((pass inp s).labels i) := by
        apply pass_cost_le
        intro j hj k _
        exact pass_clusters_outside inp s j k (fun hh => absurd hh.1 (not_lt.mpr hj))
    _ ≤ ∑ i in Finset.range inp.rows,
        squaredDistance inp.cols inp.points s.clusters i (s.labels i) := by
        apply Finset.sum_le_sum
        intro i hi
        exact (pass_label_cost_le inp s h i (Finset.mem_range.mp hi)).1

/-- When a pass leaves the cost as well, no label becomes a larger index. -/
theorem pass_labels_le (inp : Input) (s : State)
    (h : unwrittenCount inp (pass inp s) = unwrittenCount inp s)
    (hcost : assignedCost inp (pass inp s) = assignedCost inp s) (i : Nat) (hi : i < inp.rows) :
    (pass inp s).labels i ≤ s.labels i := by
  have h1 : ∑ i in Finset.range inp.rows,
        squaredDistance inp.cols inp.points (pass inp s).clusters i ((pass inp s).labels i)
      ≤ ∑ i in Finset.range inp.rows,
        squaredDistance inp.cols inp.points s.clusters i ((pass inp s).labels i) := by
    apply pass_cost_le
    intro j hj k _
    exact pass_clusters_outside inp s j k (fun hh => absurd hh.1 (not_lt.mpr hj))
  have h2 : ∑ i in Finset.range inp.rows,
        squaredDistance inp.cols inp.points s.clusters i ((pass inp s).labels i)
      ≤ ∑ i in Finset.range inp.rows,
        squaredDistance inp.cols inp.points s.clusters i (s.labels i) :=
    Finset.sum_le_sum (fun i hi => (pass_label_cost_le inp s h i (Finset.mem_range.mp hi)).1)
  have hmid : ∑ i in Finset.range inp.rows,
        squaredDistance inp.cols inp.points s.clusters i ((pass inp s).labels i)
      = ∑ i in Finset.range inp.rows,
        squaredDistance inp.cols inp.points s.clusters i (s.labels i) := by
    unfold assignedCost at hcost
    exact le_antisymm h2 (hcost ▸ h1)
  have hterm := (Finset.sum_eq_sum_iff_of_le
    (fun i hi => (pass_label_cost_le inp s h i (Finset.mem_range.mp hi)).1)).mp hmid
  exact (pass_label_cost_le inp s h i hi).2 (hterm i (Finset.mem_range.mpr hi))

theorem labelTotal_pass_le (inp : Input) (s : State)
    (h : unwrittenCount inp (pass inp s) = unwrittenCount inp s)
    (hcost : assignedCost inp (pass inp s) = assignedCost inp s) :
    labelTotal inp (pass inp s) ≤ labelTotal inp s :=
  Finset.sum_le_sum (fun i hi => pass_labels_le inp s h hcost i (Finset.mem_range.mp hi))

/-- When a pass leaves the sum of the labels too, it leaves every label. -/
theorem pass_labels_eq (inp : Input) (s : State)
    (h : unwrittenCount inp (pass inp s) = unwrittenCount inp s)
    (hcost : assignedCost inp (pass inp s) = assignedCost inp s)
    (htot : labelTotal inp (pass inp s) = labelTotal inp s) (i : Nat) (hi : i < inp.rows) :
    (pass inp s).labels i = s.labels i :=
  (Finset.sum_eq_sum_iff_of_le
    (fun i hi => pass_labels_le inp s h hcost i (Finset.mem_range.mp hi))).mp htot i
    (Finset.mem_range.mpr hi)

/-- A sequence that does not increase from `a` to `b` and ends where it starts
is constant between them. -/
theorem const_of_step_le {α : Type} [PartialOrder α] (f : Nat → α) (a b : Nat)
    (hstep : ∀ n, a ≤ n → n < b → f (n + 1) ≤ f n) (hends : f b = f a) :
    ∀ n, a ≤ n → n ≤ b → f n = f a := by
  have hdown : ∀ d n, a ≤ n → n + d ≤ b → f (n + d) ≤ f n := by
    intro d
    induction d with
    | zero => intro n _ _; exact le_refl _
    | succ d ih =>
      intro n han hnb
      have h1 := hstep (n + d) (by omega) (by omega)
      exact le_trans h1 (ih n han (by omega))
  intro n han hnb
  have h1 : f n ≤ f a := by
    have := hdown (n - a) a (le_refl a) (by omega)
    rwa [Nat.add_sub_cancel' han] at this
  have h2 : f b ≤ f n := by
    have := hdown (b - n) n han (by omega)
    rwa [Nat.add_sub_cancel' hnb] at this
  exact le_antisymm h1 (hends ▸ h2)

theorem passes_clusters_outside (inp : Input) (s : State) (n j k : Nat)
    (h : ¬ (j < inp.nclusters ∧ k < inp.cols)) :
    (passes inp s n).clusters j k = s.clusters j k := by
  induction n with
  | zero => rfl
  | succ n ih =>
    show (pass inp (passes inp s n)).clusters j k = _
    rw [pass_clusters_outside inp _ j k h, ih]

/-- The centroids a pass writes are determined by the labels it writes. -/
theorem pass_clusters_of_labels (inp : Input) (x y : State)
    (hlab : ∀ i, i < inp.rows → (pass inp x).labels i = (pass inp y).labels i)
    (hout : ∀ j k, ¬ (j < inp.nclusters ∧ k < inp.cols) → x.clusters j k = y.clusters j k) :
    (pass inp x).clusters = (pass inp y).clusters := by
  funext j k
  by_cases hjk : j < inp.nclusters ∧ k < inp.cols
  · have hf : (Finset.range inp.rows).filter (fun i => (pass inp x).labels i = j)
        = (Finset.range inp.rows).filter (fun i => (pass inp y).labels i = j) := by
      apply Finset.filter_congr
      intro i hi
      rw [hlab i (Finset.mem_range.mp hi)]
    have hcnt : (pass inp x).counts j = (pass inp y).counts j := by
      rw [pass_counts inp x j hjk.1, pass_counts inp y j hjk.1, hf]
    have htmp : (pass inp x).temp_clusters j k = (pass inp y).temp_clusters j k := by
      rw [pass_temp_clusters inp x j k hjk.1 hjk.2, pass_temp_clusters inp y j k hjk.1 hjk.2, hf]
    rw [pass_clusters inp x j k hjk.1 hjk.2, pass_clusters inp y j k hjk.1 hjk.2, hcnt, htmp]
  · rw [pass_clusters_outside inp x j k hjk, pass_clusters_outside inp y j k hjk, hout j k hjk]

/-- After at least one pass each, two states of a run with the same labels
have the same centroids. -/
theorem passes_clusters_of_labels (inp : Input) (s : State) (a b : Nat)
    (hlab : ∀ i, i < inp.rows →
      (passes inp s (a + 1)).labels i = (passes inp s (b + 1)).labels i) :
    (passes inp s (a + 1)).clusters = (passes inp s (b + 1)).clusters := by
  apply pass_clusters_of_labels inp (passes inp s a) (passes inp s b) hlab
  intro j k hjk
  rw [passes_clusters_outside inp s a j k hjk, passes_clusters_outside inp s b j k hjk]

/-- Every label of a run is a cluster index or the initial content. -/
theorem passes_labels_cases (inp : Input) (s : State) (n i : Nat) (hi : i < inp.rows) :
    (passes inp s n).labels i < inp.nclusters ∨ (passes inp s n).labels i = s.labels i := by
  induction n with
  | zero => right; rfl
  | succ n ih =>
    rcases pass_label_cases inp (passes inp s n) i hi with h | h
    · have h' : (passes inp s (n + 1)).labels i = (passes inp s n).labels i := h
      rw [h']; exact ih
    · left; exact h.1

theorem passes_labels_bound (inp : Input) (s : State) (n i : Nat) (hi : i < inp.rows) :
    (passes inp s n).labels i
      < inp.nclusters + (∑ x in Finset.range inp.rows, s.labels x) + 1 := by
  have hle : s.labels i ≤ ∑ x in Finset.range inp.rows, s.labels x :=
    Finset.single_le_sum (f := fun x => s.labels x) (fun _ _ => Nat.zero_le _)
      (Finset.mem_range.mpr hi)
  rcases passes_labels_cases inp s n i hi with h | h
  · omega
  · rw [h]; omega

/-- Two different passes of a run leave the same labels. -/
theorem passes_labels_repeat (inp : Input) (s : State) :
    ∃ a b, a < b ∧ ∀ i, i < inp.rows →
      (passes inp s (a + 1)).labels i = (passes inp s (b + 1)).labels i := by
  set M := inp.nclusters + (∑ x in Finset.range inp.rows, s.labels x) + 1 with hM
  have hMpos : 0 < M := by omega
  let code : Nat → (Fin inp.rows → Fin M) := fun n i =>
    ⟨(passes inp s (n + 1)).labels i.val % M, Nat.mod_lt _ hMpos⟩
  obtain ⟨x, y, hne, hxy⟩ := Finite.exists_ne_map_eq_of_infinite code
  have key : ∀ i, i < inp.rows →
      (passes inp s (x + 1)).labels i = (passes inp s (y + 1)).labels i := by
    intro i hi
    have h1 := congrArg (fun f => (f ⟨i, hi⟩).val) hxy
    simp only [code] at h1
    rwa [Nat.mod_eq_of_lt (passes_labels_bound inp s (x + 1) i hi),
      Nat.mod_eq_of_lt (passes_labels_bound inp s (y + 1) i hi)] at h1
  rcases Nat.lt_or_gt_of_ne hne with h | h
  · exact ⟨x, y, h, key⟩
  · exact ⟨y, x, h, fun i hi => (key i hi).symm⟩

/-- Some pass of a run leaves every label as it found it. -/
theorem passes_labels_fixed (inp : Input) (s : State) :
    ∃ a, ∀ i, i < inp.rows →
      (passes inp s (a + 2)).labels i = (passes inp s (a + 1)).labels i := by
  obtain ⟨a, b, hab, hlab⟩ := passes_labels_repeat inp s
  have hcl := passes_clusters_of_labels inp s a b hlab
  refine ⟨a, ?_⟩
  -- the number of labels that are no cluster index is constant from `a + 1` to `b + 1`
  have hu := const_of_step_le (fun n => unwrittenCount inp (passes inp s n)) (a + 1) (b + 1)
    (fun n _ _ => unwrittenCount_pass_le inp (passes inp s n))
    (by
      show unwrittenCount inp (passes inp s (b + 1)) = unwrittenCount inp (passes inp s (a + 1))
      unfold unwrittenCount
      congr 1
      apply Finset.filter_congr
      intro i hi
      rw [hlab i (Finset.mem_range.mp hi)])
  have hu' : ∀ n, a + 1 ≤ n → n < b + 1 →
      unwrittenCount inp (pass inp (passes inp s n)) = unwrittenCount inp (passes inp s n) := by
    intro n h1 h2
    have e1 := hu (n + 1) (by omega) (by omega)
    have e2 := hu n h1 (by omega)
    exact e1.trans e2.symm
  -- so is the cost
  have hc := const_of_step_le (fun n => assignedCost inp (passes inp s n)) (a + 1) (b + 1)
    (fun n h1 h2 => assignedCost_pass_le inp (passes inp s n) (hu' n h1 h2))
    (by
      show assignedCost inp (passes inp s (b + 1)) = assignedCost inp (passes inp s (a + 1))
      unfold assignedCost
      rw [hcl]
      apply Finset.sum_congr rfl
      intro i hi
      rw [hlab i (Finset.mem_range.mp hi)])
  have hc' : ∀ n, a + 1 ≤ n → n < b + 1 →
      assignedCost inp (pass inp (passes inp s n)) = assignedCost inp (passes inp s n) := by
    intro n h1 h2
    have e1 := hc (n + 1) (by omega) (by omega)
    have e2 := hc n h1 (by omega)
    exact e1.trans e2.symm
  -- and so is the sum of the labels
  have ht := const_of_step_le (fun n => labelTotal inp (passes inp s n)) (a + 1) (b + 1)
    (fun n h1 h2 => labelTotal_pass_le inp (passes inp s n) (hu' n h1 h2) (hc' n h1 h2))
    (by
      show labelTotal inp (passes inp s (b + 1)) = labelTotal inp (passes inp s (a + 1))
      unfold labelTotal
      apply Finset.sum_congr rfl
      intro i hi
      rw [hlab i (Finset.mem_range.mp hi)])
  have ht' : labelTotal inp (pass inp (passes inp s (a + 1)))
      = labelTotal inp (passes inp s (a + 1)) :=
    ht (a + 2) (by omega) (by omega)
  intro i hi
  exact pass_labels_eq inp (passes inp s (a + 1)) (hu' (a + 1) (le_refl _) (by omega))
    (hc' (a + 1) (le_refl _) (by omega)) ht' i hi

/-- Some pass of a run computes the error of the pass before it. -/
theorem passes_error_repeat (inp : Input) (s : State) :
    ∃ n, (passes inp s (n + 2)).error = (passes inp s (n + 1)).error := by
  obtain ⟨a, hfix⟩ := passes_labels_fixed inp s
  have hcl : (passes inp s (a + 2)).clusters = (passes inp s (a + 1)).clusters :=
    passes_clusters_of_labels inp s (a + 1) a hfix
  refine ⟨a + 1, ?_⟩
  show (pass inp (passes inp s (a + 2))).error = (pass inp (passes inp s (a + 1))).error
  rw [pass_error, pass_error, hcl]
  apply Finset.sum_congr rfl
  intro i hi
  exact minDistance_congr inp _ _ _ i (hfix i (Finset.mem_range.mp hi))

/-- For a tolerance that is not negative the exit test fails after some
pass, and with enough fuel the loop returns after the first such pass. -/
theorem loop_terminates (inp : Input) (s : State) (heps : 0 ≤ inp.epsilon) :
    ∃ n, ¬ continues inp (passes inp s (n + 1)) ∧
      (∀ m, m < n → continues inp (passes inp s (m + 1))) ∧
      ∀ fuel, n < fuel → loop inp fuel s = some (passes inp s (n + 1)) := by
  have hex : ∃ n, ¬ continues inp (passes inp s (n + 1)) := by
    obtain ⟨n, hn⟩ := passes_error_repeat inp s
    refine ⟨n + 1, ?_⟩
    unfold continues
    have hold : (passes inp s (n + 1 + 1)).old_error = (passes inp s (n + 1)).error := rfl
    rw [hold, hn, sub_self, abs_zero]
    exact not_lt.mpr heps
  classical
  refine ⟨Nat.find hex, Nat.find_spec hex, ?_, ?_⟩
  · intro m hm
    exact not_not.mp (Nat.find_min hex hm)
  · intro fuel hf
    exact loop_of_passes inp (Nat.find hex) fuel s hf (Nat.find_spec hex)
      (fun m hm => not_not.mp (Nat.find_min hex hm))

/-- C17: for every input with a positive tolerance, whatever the points, the
starting centroids and the uninitialised content, the exit test fails after
some pass `n ≥ 1`, and `cluster` returns after `n` passes for every fuel of at
least `n`. -/
theorem C17_loop_terminates (P : Platform) (inp : Input) (heps : 0 < inp.epsilon) :
    ∃ n, 1 ≤ n ∧ ¬ continues inp (passes inp (init P inp) n) ∧
      (∀ m, 1 ≤ m → m < n → continues inp (passes inp (init P inp) m)) ∧
      ∀ fuel, n ≤ fuel →
        cluster fuel P inp = some (finish P inp (passes inp (init P inp) n)) := by
  obtain ⟨n, hstop, hgo, hret⟩ := loop_terminates inp (init P inp) (le_of_lt heps)
  refine ⟨n + 1, by omega, hstop, ?_, ?_⟩
  · intro m hm1 hmn
    obtain ⟨m', rfl⟩ : ∃ m', m = m' + 1 := ⟨m - 1, by omega⟩
    exact hgo m' (by omega)
  · intro fuel hf
    unfold cluster
    rw [hret fuel (by omega)]
    rfl

/-- Witness of C17 on `drift`, whose error is not monotone. -/
theorem C17_loop_terminates_witness :
    0 < drift.epsilon ∧
      ∃ n, 1 ≤ n ∧ ¬ continues drift (passes drift (init platform0 drift) n) ∧
        (∀ m, 1 ≤ m → m < n → continues drift (passes drift (init platform0 drift) m)) ∧
        ∀ fuel, n ≤ fuel →
          cluster fuel platform0 drift
            = some (finish platform0 drift (passes drift (init platform0 drift) n)) :=
  ⟨by decide!, C17_loop_terminates platform0 drift (by decide!)⟩

end fgt
